import Mathlib

/-!
# container-info: cgroup naming, pod cache filter and PID collection

A shallow embedding of `utils.go`, `types.go`, `continerInfo.go` and
`podCache.go`.  Go strings are Lean strings; a Go function that can return an
error or panic returns a `Result`.
-/

namespace ContainerInfo

/-! ## Outcomes of a Go call -/

/-- Go `error` values that the package creates or forwards. -/
inductive GoError where
  /-- The error of `cgroupsystemd.ExpandSlice`: `invalid slice name: <slice>`. -/
  | invalidSliceName (slice : String)
  /-- The error of the pod lister when no pod is stored under the key. -/
  | notFound (name : String)
  /-- The value `fmt.Errorf("terminated pod")`. -/
  | terminatedPod
  /-- The value `fmt.Errorf("no gpu pod")`. -/
  | noGpuPod
  /-- The error of the container-status RPC. -/
  | runtime (msg : String)
  deriving DecidableEq, Repr

/-- Ordered path segments, `type CgroupName []string`. -/
abbrev CgroupName := List String

/-- Values a goroutine of this package can panic with. -/
inductive PanicValue where
  /-- `invalid character in component [%q] of CgroupName` (NewCgroupName). -/
  | invalidComponent (component : String)
  /-- `error converting cgroup name [%v] to systemd format: %v` (ToSystemd). -/
  | systemdConversion (cgroupName : CgroupName) (err : GoError)
  /-- A method call through a nil interface value. -/
  | nilDereference
  deriving DecidableEq, Repr

/-- The outcome of a Go call: a value with a nil error, a non-nil error, or a panic. -/
inductive Result (α : Type) where
  | ok (val : α)
  | error (err : GoError)
  | panic (p : PanicValue)
  deriving DecidableEq, Repr

/-- Sequencing of Go calls: an error or a panic of the first ends the computation. -/
def Result.bind {α β : Type} (r : Result α) (f : α → Result β) : Result β :=
  match r with
  | .ok a => f a
  | .error e => .error e
  | .panic p => .panic p

instance : Monad Result where
  pure := Result.ok
  bind := Result.bind

/-! ## The `strings` functions the package calls -/

/-- Go `strings.Contains(s, substr)`. -/
def stringsContains (s substr : String) : Bool :=
  decide (substr.data <:+: s.data)

/-- Go `strings.Replace(s, old, new, -1)` for one-byte `old` and `new`:
every occurrence of `old` becomes `new`. -/
def stringsReplaceAll (s : String) (old new : Char) : String :=
  ⟨s.data.map (fun c => if c = old then new else c)⟩

/-- Go `strings.Join(elems, sep)`. -/
def stringsJoin (elems : List String) (sep : String) : String :=
  ⟨sep.data.intercalate (elems.map String.data)⟩

/-- Go `strings.HasSuffix(s, suffix)`. -/
def stringsHasSuffix (s suffix : String) : Bool :=
  decide (suffix.data <:+ s.data)

/-- Go `strings.TrimSuffix(s, suffix)`. -/
def stringsTrimSuffix (s suffix : String) : String :=
  if stringsHasSuffix s suffix then ⟨s.data.take (s.data.length - suffix.data.length)⟩ else s

/-- Go `strings.Split(s, sep)` for a one-byte separator. -/
def stringsSplit (s : String) (sep : Char) : List String :=
  (s.data.splitOn sep).map String.mk

/-- Go `strings.ToLower` on ASCII text. -/
def stringsToLower (s : String) : String :=
  ⟨s.data.map Char.toLower⟩

/-! ## types.go -/

def PodNamespaceLabelKey : String := "io.kubernetes.pod.namespace"
def PodNameLabelKey : String := "io.kubernetes.pod.name"
def PodCgroupNamePrefix : String := "pod"

/-- The cgroup name suffix for systemd. -/
def systemdSuffix : String := ".slice"

def CGROUP_BASE : String := "/sys/fs/cgroup/memory"
def CGROUP_PROCS : String := "cgroup.procs"

def Danavgpu : String := "dana.894/gpu"
def Nvidiagpu : String := "nvidia.com/gpu"

/-! ## utils.go: cgroup names -/

/-- The check of `NewCgroupName` on one component. -/
def invalidComponent (component : String) : Bool :=
  stringsContains component "/" || stringsContains component "_"

/-- `NewCgroupName(base, components...)`: panics at the first component holding
`/` or `_`, otherwise returns a fresh copy of `base` followed by `components`. -/
def NewCgroupName (base : CgroupName) (components : List String) : Result CgroupName :=
  match components.find? invalidComponent with
  | some component => .panic (.invalidComponent component)
  | none => .ok (base ++ components)

/-- The package variable `containerRoot = NewCgroupName([]string{}, "kubepods")`. -/
def containerRoot : Result CgroupName := NewCgroupName [] ["kubepods"]

/-- `escapeSystemdCgroupName(part) = strings.Replace(part, "-", "_", -1)`. -/
def escapeSystemdCgroupName (part : String) : String :=
  stringsReplaceAll part '-' '_'

/-- The loop of runc's `ExpandSlice` over the components of the slice name:
an empty component is an error, otherwise the component is appended to the
path under the prefix built so far. -/
def expandSliceLoop (slice suffix : String) : List String → String → String → Result String
  | [], path, _ => .ok path
  | component :: rest, path, pre =>
    if component = "" then Result.error (.invalidSliceName slice)
    else expandSliceLoop slice suffix rest
      (path ++ ("/" ++ pre ++ component ++ suffix)) (pre ++ (component ++ "-"))

/-- `cgroupsystemd.ExpandSlice(slice)` of runc's libcontainer: expands a systemd
slice name into its cgroupfs path form. -/
def ExpandSlice (slice : String) : Result String :=
  let suffix : String := ".slice"
  if slice.utf8ByteSize < suffix.utf8ByteSize || !stringsHasSuffix slice suffix then
    Result.error (.invalidSliceName slice)
  else if stringsContains slice "/" then
    Result.error (.invalidSliceName slice)
  else
    let sliceName : String := stringsTrimSuffix slice suffix
    if sliceName = "-" then Result.ok "/"
    else expandSliceLoop slice suffix (stringsSplit sliceName '-') "" ""

/-- `cgroupName.ToSystemd()`: the systemd form of the internal cgroup name;
an error of the slice expansion is a panic. -/
def ToSystemd (cgroupName : CgroupName) : Result String :=
  if cgroupName.length = 0 || (cgroupName.length = 1 && cgroupName.head? = some "") then
    Result.ok "/"
  else
    let newparts := cgroupName.map escapeSystemdCgroupName
    match ExpandSlice (stringsJoin newparts "-" ++ systemdSuffix) with
    | .ok result => .ok result
    | .error err => .panic (.systemdConversion cgroupName err)
    | .panic p => .panic p

/-! ## utils.go: reading a `cgroup.procs` file -/

/-- The constant `bufio.MaxScanTokenSize`: the largest buffer a `bufio.Scanner`
allocates for one token. -/
def MaxScanTokenSize : Nat := 64 * 1024

/-- The helper `dropCR` of `bufio.ScanLines`: drops one terminal carriage return. -/
def dropCR (data : List Char) : List Char :=
  if data.getLast? = some '\r' then data.dropLast else data

/-- The lines `bufio.ScanLines` cuts the input into, end-of-line marker `\n`
removed: the text after the last newline is a line only when it is not empty. -/
def scanLines (data : List Char) : List (List Char) :=
  let parts := data.splitOn '\n'
  if parts.getLast? = some [] then parts.dropLast else parts

/-- The tokens that successive `scanner.Scan()` calls deliver for a
`bufio.NewScanner` over the content: the lines in order, each with its terminal
carriage return dropped; `Scan` returns false (ErrTooLong) at the first line of
`MaxScanTokenSize` bytes or more, and the loop ends there. -/
def scannerTokens (content : String) : List String :=
  ((scanLines content.data).takeWhile
    (fun line => decide ((String.mk line).utf8ByteSize < MaxScanTokenSize))).map
    (fun line => String.mk (dropCR line))

/-- The digit loop of `strconv.Atoi`: the value of a run of decimal digits,
`none` at a byte that is no digit. -/
def parseDigits : List Char → Nat → Option Nat
  | [], n => some n
  | ch :: rest, n =>
    if '0' ≤ ch ∧ ch ≤ '9' then parseDigits rest (n * 10 + (ch.toNat - '0'.toNat)) else none

/-- Go `strconv.Atoi(s)` on a 64-bit platform, `none` for a non-nil error: an
optional sign, then one or more decimal digits, the value within the range of
`int`. -/
def strconvAtoi (s : String) : Option Int :=
  match s.data with
  | [] => none
  | s0 :: rest =>
    let digits := if s0 = '-' ∨ s0 = '+' then rest else s0 :: rest
    if digits = [] then none
    else
      match parseDigits digits 0 with
      | none => none
      | some n =>
        let v : Int := if s0 = '-' then -(n : Int) else (n : Int)
        if -(2 : Int) ^ 63 ≤ v ∧ v ≤ (2 : Int) ^ 63 - 1 then some v else none

/-- `readProcsFile(file)`; the argument is what `os.Open(file)` followed by reading
the file gives: `none` when the file cannot be opened, its content otherwise. -/
def readProcsFile (opened : Option String) : Result (List Int) :=
  match opened with
  | none => .ok []
  | some content => .ok ((scannerTokens content).filterMap strconvAtoi)

/-! ## The pod objects of `k8s.io/api/core/v1` (the fields the package reads) -/

structure ContainerStateWaiting where
  Reason : String
  deriving DecidableEq, Repr

structure ContainerStateRunning where
  StartedAt : Nat
  deriving DecidableEq, Repr

structure ContainerStateTerminated where
  ExitCode : Int
  deriving DecidableEq, Repr

/-- The type `v1.ContainerState`: three pointers, nil is `none`. -/
structure ContainerState where
  Waiting : Option ContainerStateWaiting
  Running : Option ContainerStateRunning
  Terminated : Option ContainerStateTerminated
  deriving DecidableEq, Repr

structure ContainerStatus where
  Name : String
  State : ContainerState
  deriving DecidableEq, Repr

/-- The type `v1.Container`: `Limits` is `Resources.Limits`, each quantity given
by its `Value()` (an int64). -/
structure Container where
  Name : String
  Limits : List (String × Int)
  deriving DecidableEq, Repr

/-- The type `v1.PodPhase`, a string type. -/
abbrev PodPhase := String
def PodFailed : PodPhase := "Failed"
def PodSucceeded : PodPhase := "Succeeded"

/-- The type `v1.PodQOSClass`, a string type. -/
abbrev PodQOSClass := String
def PodQOSGuaranteed : PodQOSClass := "Guaranteed"
def PodQOSBurstable : PodQOSClass := "Burstable"
def PodQOSBestEffort : PodQOSClass := "BestEffort"

structure PodStatus where
  Phase : PodPhase
  ContainerStatuses : List ContainerStatus
  deriving DecidableEq, Repr

structure PodSpec where
  Containers : List Container
  deriving DecidableEq, Repr

structure Pod where
  Name : String
  Namespace : String
  UID : String
  DeletionTimestamp : Option Nat
  Spec : PodSpec
  Status : PodStatus
  deriving DecidableEq, Repr

/-! ## utils.go: pod predicates -/

/-- `notRunning(statuses)`: false at the first status whose state is neither
terminated nor waiting. -/
def notRunning : List ContainerStatus → Bool
  | [] => true
  | status :: rest =>
    if status.State.Terminated = none ∧ status.State.Waiting = none then false
    else notRunning rest

/-- `podIsTerminated(pod)`. -/
def podIsTerminated (pod : Pod) : Bool :=
  pod.Status.Phase == PodFailed || pod.Status.Phase == PodSucceeded ||
    (pod.DeletionTimestamp != none && notRunning pod.Status.ContainerStatuses)

/-- The conversion `uint(v)` of an int64 on a 64-bit platform. -/
def toUint (v : Int) : Nat := (v % (2 ^ 64 : Int)).toNat

/-- The lookup `container.Resources.Limits[resourceName]` with its `ok` flag. -/
def limitOf (limits : List (String × Int)) (resourceName : String) : Option Int :=
  (limits.find? (fun kv => kv.1 == resourceName)).map Prod.snd

/-- The loop of `GetGPUResourceOfPod`: `total += uint(val.Value())` in `uint`
arithmetic. -/
def sumLimits (resourceName : String) : List Container → Nat → Nat
  | [], total => total
  | container :: rest, total =>
    match limitOf container.Limits resourceName with
    | some val => sumLimits resourceName rest ((total + toUint val) % 2 ^ 64)
    | none => sumLimits resourceName rest total

/-- `GetGPUResourceOfPod(pod, resourceName)`. -/
def GetGPUResourceOfPod (pod : Pod) (resourceName : String) : Nat :=
  sumLimits resourceName pod.Spec.Containers 0

/-- `IsGPURequiredPod(pod)`. -/
def IsGPURequiredPod (pod : Pod) : Bool :=
  let dannagpu := GetGPUResourceOfPod pod Danavgpu
  let nvidiagpu := GetGPUResourceOfPod pod Nvidiagpu
  if dannagpu ≤ 0 ∧ nvidiagpu ≤ 0 then false else true

/-! ## podCache.go -/

/-- The pod cache: what the informer's lister holds, the pod stored under a
namespace and a name, if any. -/
structure PodCache where
  mirror : String → String → Option Pod

/-- The call `p.podInformer.Lister().Pods(namespace).Get(name)`. -/
def PodCache.listerGet (p : PodCache) (ns name : String) : Result Pod :=
  match p.mirror ns name with
  | some pod => .ok pod
  | none => .error (.notFound name)

/-- `PodCache.GetPod(namespace, name)`. -/
def PodCache.GetPod (p : PodCache) (ns name : String) : Result Pod :=
  match p.listerGet ns name with
  | .error err => .error err
  | .panic v => .panic v
  | .ok pod =>
    if podIsTerminated pod then .error .terminatedPod
    else if !IsGPURequiredPod pod then .error .noGpuPod
    else .ok pod

/-! ## continerInfo.go -/

/-- `getCgroupName(pod, containerID)`; `GetPodQOS` is `qos.GetPodQOS` of kubectl.
A QoS class matched by no case of the switch leaves `parentContainer` nil. -/
def getCgroupName (GetPodQOS : Pod → PodQOSClass) (pod : Pod) (containerID : String) :
    Result String := do
  let root ← containerRoot
  let podQos := GetPodQOS pod
  let switch : Result CgroupName :=
    if podQos = PodQOSGuaranteed then NewCgroupName root []
    else if podQos = PodQOSBurstable then NewCgroupName root [stringsToLower PodQOSBurstable]
    else if podQos = PodQOSBestEffort then NewCgroupName root [stringsToLower PodQOSBestEffort]
    else Result.ok []
  let parentContainer ← switch
  let podContainer := PodCgroupNamePrefix ++ pod.UID
  let cgroupName ← NewCgroupName parentContainer [podContainer]
  let systemd ← ToSystemd cgroupName
  Result.ok (systemd ++ "/" ++ "crio-conmon" ++ "-" ++ containerID ++ ".scope")

/-- The element loop of Go `filepath.Clean` on Unix: `stack` holds the kept
elements, last first. -/
def cleanElems (rooted : Bool) : List String → List String → List String
  | [], stack => stack.reverse
  | e :: rest, stack =>
    if e = "" ∨ e = "." then cleanElems rooted rest stack
    else if e = ".." then
      match stack with
      | [] => if rooted then cleanElems rooted rest [] else cleanElems rooted rest [".."]
      | top :: below =>
        if top = ".." then cleanElems rooted rest (".." :: top :: below)
        else cleanElems rooted rest below
    else cleanElems rooted rest (e :: stack)

/-- Go `filepath.Clean(path)` on Unix. -/
def filepathClean (path : String) : String :=
  if path = "" then "."
  else
    let rooted := path.data.head? = some '/'
    let elems := cleanElems rooted (stringsSplit path '/') []
    let out := (if rooted then "/" else "") ++ stringsJoin elems "/"
    if out = "" then "." else out

/-- Go `filepath.Join(a, b)` on Unix: the elements from the first non-empty one on,
joined by `/` and cleaned; the empty string when every element is empty. -/
def filepathJoin (a b : String) : String :=
  match [a, b].dropWhile (fun e => e == "") with
  | [] => ""
  | elems => filepathClean (stringsJoin elems "/")

/-- What `os.FileInfo` tells the walk callback. -/
structure FileInfo where
  name : String
  isDir : Bool
  deriving DecidableEq, Repr

/-- A file tree as the walk meets it: a file with what opening and reading it gives
(`none` when it cannot be opened), a directory with the entries its listing names,
in the order of their names (none when it cannot be read), or an entry that the
listing of its directory names but on which `Lstat` fails, such as a cgroup removed
since the listing. -/
inductive FsNode where
  | file (name : String) (opened : Option String)
  | dir (name : String) (entries : List FsNode)
  | gone (name : String)

/-- One call of the walk callback: the `info` argument (`none` is nil), whether
the `err` argument is non-nil, and what opening `path` gives. -/
structure WalkVisit where
  info : Option FileInfo
  failed : Bool
  opened : Option String
  deriving DecidableEq, Repr

/-- The calls Go `filepath.walk` makes at and below a node, for a callback that
returns nil each time: the node itself, then its entries in order; for an entry on
which `Lstat` fails, one call with a nil `info` and the error. -/
def walkVisits : FsNode → List WalkVisit
  | .file name opened => [⟨some ⟨name, false⟩, false, opened⟩]
  | .dir name entries => ⟨some ⟨name, true⟩, false, none⟩ :: walkEntries entries
  | .gone _ => [⟨none, true, none⟩]
where
  /-- The loop of `filepath.walk` over the names of a directory. -/
  walkEntries : List FsNode → List WalkVisit
    | [] => []
    | entry :: rest => walkVisits entry ++ walkEntries rest

/-- The calls Go `filepath.Walk(root, fn)` makes for a callback that returns nil
each time: when `os.Lstat(root)` fails, one call with a nil `info` and the error. -/
def filepathWalk (lstat : String → Option FsNode) (root : String) : List WalkVisit :=
  match lstat root with
  | none => [⟨none, true, none⟩]
  | some node => walkVisits node

/-- The callback `GetPidsInContainers` passes to `filepath.Walk`, on the PIDs
collected so far.  It ignores its `err` argument and calls `info.IsDir()` first. -/
def walkFn (pids : List Int) (visit : WalkVisit) : Result (List Int) :=
  match visit.info with
  | none => .panic .nilDereference
  | some info =>
    if info.isDir || info.name != CGROUP_PROCS then .ok pids
    else
      match readProcsFile visit.opened with
      | .ok p => .ok (pids ++ p)
      | _ => .ok pids

/-- The walk of `GetPidsInContainers`: the callback on each visit in order. -/
def walkAll : List WalkVisit → List Int → Result (List Int)
  | [], pids => .ok pids
  | visit :: rest, pids =>
    match walkFn pids visit with
    | .ok pids1 => walkAll rest pids1
    | .error err => .error err
    | .panic v => .panic v

/-- The answer of the runtime's `ContainerStatus` RPC: `Status` is a pointer to a
status, of which the package reads the labels. -/
structure ContainerStatusResponse where
  Status : Option (List (String × String))
  deriving DecidableEq, Repr

/-- The lookup `labels[key]` of a Go map: the empty string for a missing key. -/
def labelOf (labels : List (String × String)) (key : String) : String :=
  match labels.find? (fun kv => kv.1 == key) with
  | some kv => kv.2
  | none => ""

/-- The type `containerInfoManager`: the embedded runtime client and the pod cache. -/
structure containerInfoManager where
  ContainerStatus : String → Result ContainerStatusResponse
  podCache : PodCache

/-- `GetPidsInContainers(containerID)`; `GetPodQOS` is `qos.GetPodQOS` and
`lstat` the file system below the cgroup mount. -/
def containerInfoManager.GetPidsInContainers (m : containerInfoManager)
    (GetPodQOS : Pod → PodQOSClass) (lstat : String → Option FsNode) (containerID : String) :
    Result (List Int) := do
  let resp ← m.ContainerStatus containerID
  let status : Result (List (String × String)) :=
    match resp.Status with
    | some labels => Result.ok labels
    | none => Result.panic .nilDereference
  let labels ← status
  let ns := labelOf labels PodNamespaceLabelKey
  let podName := labelOf labels PodNameLabelKey
  let pod ← m.podCache.GetPod ns podName
  let cgroupPath ← getCgroupName GetPodQOS pod containerID
  let baseDir := filepathClean (filepathJoin CGROUP_BASE cgroupPath)
  walkAll (filepathWalk lstat baseDir) []

/-! ## The forms the specification names -/

/-- The nested slice path of the escaped segments `e1 .. en`: the concatenation,
for `i = 1..n`, of `"/" + e1 + "-" + ... + "-" + ei + ".slice"`. -/
def nestedSlicePath (es : List String) : String :=
  String.join ((List.range es.length).map
    (fun i => "/" ++ stringsJoin (es.take (i + 1)) "-" ++ ".slice"))

/-- The string `u` with every `-` replaced by `_`. -/
def dashToUnderscore (u : String) : String :=
  ⟨u.data.map (fun c => if c = '-' then '_' else c)⟩

/-- The value of a line that consists entirely of a decimal integer, an optional
sign followed by one or more decimal digits; `none` for any other line. -/
def decimalValue (line : String) : Option Int :=
  match line.data with
  | [] => none
  | c :: cs =>
    let digits := if c = '-' ∨ c = '+' then cs else c :: cs
    if digits ≠ [] ∧ digits.all (fun d => decide ('0' ≤ d ∧ d ≤ '9')) = true then
      let n : Nat := digits.foldl (fun n d => n * 10 + (d.toNat - '0'.toNat)) 0
      some (if c = '-' then -(n : Int) else (n : Int))
    else none

/-- The lines of a file content: the pieces between its newlines. -/
def linesOf (content : String) : List String :=
  stringsSplit content '\n'

/-- What the specification gives for `readProcsFile` on a file content: in line
order, the values of the lines that consist entirely of a decimal integer. -/
def decimalLines (content : String) : List Int :=
  (linesOf content).filterMap decimalValue

/-- Whether a value fits the 64-bit `int`. -/
def fitsInt (v : Int) : Bool :=
  decide (-(2 : Int) ^ 63 ≤ v ∧ v ≤ (2 : Int) ^ 63 - 1)

/-- The line without one terminal carriage return. -/
def trimCR (line : String) : String :=
  ⟨dropCR line.data⟩

/-- The amended form: the lines before the first line of `MaxScanTokenSize` bytes
or more, each without its terminal carriage return, give the values of those that
consist entirely of a decimal integer within the range of `int`. -/
def decimalLinesInRange (content : String) : List Int :=
  ((linesOf content).takeWhile (fun line => decide (line.utf8ByteSize < MaxScanTokenSize))).filterMap
    (fun line => (decimalValue (trimCR line)).filter fitsInt)

/-- A line of `MaxScanTokenSize` letters `x`. -/
def longLine : String :=
  ⟨List.replicate MaxScanTokenSize 'x'⟩

/-- What one `cgroup.procs` file adds to the PID list: the list `readProcsFile`
returns for it, nothing when the call fails. -/
def procsPids (opened : Option String) : List Int :=
  match readProcsFile opened with
  | .ok p => p
  | _ => []

/-- The non-directory entries named exactly `cgroup.procs` at and below a node, in
walk order (the entries of a directory in the order of their names, each
directory before what it holds), each given by what opening it gives. -/
def procsFilesUnder : FsNode → List (Option String)
  | .file name opened => if name = CGROUP_PROCS then [opened] else []
  | .dir _ entries => procsFilesIn entries
  | .gone _ => []
where
  /-- The same for the entries of a directory. -/
  procsFilesIn : List FsNode → List (Option String)
    | [] => []
    | entry :: rest => procsFilesUnder entry ++ procsFilesIn rest

/-- Whether `Lstat` succeeds on the node and on every entry listed below it. -/
def allStat : FsNode → Bool
  | .file _ _ => true
  | .dir _ entries => allStatIn entries
  | .gone _ => false
where
  /-- The same for the entries of a directory. -/
  allStatIn : List FsNode → Bool
    | [] => true
    | entry :: rest => allStat entry && allStatIn rest

/-- The whitespace-separated fields of a file content: the non-empty pieces
between its spaces, tabs and newlines. -/
def fieldsOf (content : String) : List String :=
  ((content.data.splitOnP (fun c => c == ' ' || c == '\t' || c == '\n')).filter
    (fun piece => !piece.isEmpty)).map String.mk

/-- What the specification gives for `readProcsFile` on whitespace-separated
integers: the values of the fields, in order. -/
def decimalFields (content : String) : List Int :=
  (fieldsOf content).filterMap decimalValue

/-- The sum, over the containers of the pod, of the integer limits for the
resource; a container without a limit for it adds nothing. -/
def limitTotal (pod : Pod) (resourceName : String) : Int :=
  (pod.Spec.Containers.filterMap (fun container => limitOf container.Limits resourceName)).sum

/-- The segments read back from a systemd path: the last slice component without
`.slice`, split on `-`, with every `_` mapped back to `-`. -/
def recoverSegments (path : String) : CgroupName :=
  let last := (stringsSplit path '/').getLastD ""
  (stringsSplit (stringsTrimSuffix last ".slice") '-').map
    (fun e => stringsReplaceAll e '_' '-')

/-! ## Helper lemmas on the `strings` functions -/

theorem stringsContains_char (s : String) (c : Char) :
    stringsContains s (String.singleton c) = true ↔ c ∈ s.data := by
  simp only [stringsContains, String.singleton, String.push, decide_eq_true_eq]
  constructor
  · intro h
    exact h.subset (List.mem_singleton_self c)
  · intro h
    obtain ⟨l1, l2, h12⟩ := List.append_of_mem h
    exact ⟨l1, l2, by simp [h12]⟩

theorem invalidComponent_iff (component : String) :
    invalidComponent component = true ↔ '/' ∈ component.data ∨ '_' ∈ component.data := by
  have h1 := stringsContains_char component '/'
  have h2 := stringsContains_char component '_'
  simp only [invalidComponent, Bool.or_eq_true]
  exact or_congr h1 h2

theorem NewCgroupName_ok (base : CgroupName) (components : List String)
    (h : ∀ c ∈ components, '/' ∉ c.data ∧ '_' ∉ c.data) :
    NewCgroupName base components = .ok (base ++ components) := by
  have hnone : components.find? invalidComponent = none := by
    rw [List.find?_eq_none]
    intro c hc hbad
    rcases (invalidComponent_iff c).1 hbad with h1 | h1
    · exact (h c hc).1 h1
    · exact (h c hc).2 h1
  simp only [NewCgroupName, hnone]

theorem NewCgroupName_panic (base : CgroupName) (components : List String)
    (h : ∃ c ∈ components, '/' ∈ c.data ∨ '_' ∈ c.data) :
    ∃ c, NewCgroupName base components = .panic (.invalidComponent c) := by
  obtain ⟨c, hc, hbad⟩ := h
  cases hfind : components.find? invalidComponent with
  | none =>
    rw [List.find?_eq_none] at hfind
    exact absurd ((invalidComponent_iff c).2 hbad) (hfind c hc)
  | some d => exact ⟨d, by simp only [NewCgroupName, hfind]⟩

theorem stringsJoin_cons_cons (a b : String) (rest : List String) (sep : String) :
    stringsJoin (a :: b :: rest) sep = a ++ (sep ++ stringsJoin (b :: rest) sep) := by
  apply String.ext
  simp [stringsJoin, List.intercalate]

theorem stringsJoin_singleton (a : String) (sep : String) : stringsJoin [a] sep = a := by
  apply String.ext
  simp [stringsJoin, List.intercalate]

/-- The path that the loop of `ExpandSlice` adds for the components `cs` under the
prefix `pre`. -/
theorem expandSliceLoop_eq (slice suffix : String) (cs : List String)
    (hne : ∀ c ∈ cs, c ≠ "") (path pre : String) :
    expandSliceLoop slice suffix cs path pre =
      .ok (path ++ String.join ((List.range cs.length).map
        (fun i => "/" ++ pre ++ stringsJoin (cs.take (i + 1)) "-" ++ suffix))) := by
  induction cs generalizing path pre with
  | nil => simp [expandSliceLoop, String.join]
  | cons c rest ih =>
    have hc : c ≠ "" := hne c (List.mem_cons_self _ _)
    have hrest : ∀ d ∈ rest, d ≠ "" := fun d hd => hne d (List.mem_cons_of_mem _ hd)
    rw [expandSliceLoop, if_neg hc, ih hrest]
    congr 1
    apply String.ext
    simp only [String.data_append, String.data_join, List.length_cons, List.range_succ_eq_map,
      List.map_cons, List.map_map, List.flatten_cons, List.take_succ_cons, List.take_zero,
      stringsJoin_singleton, List.append_assoc]
    congr 6
    apply List.map_congr_left
    intro i hi
    have hlt : i < rest.length := List.mem_range.1 hi
    obtain ⟨d, ds, hds⟩ : ∃ d ds, rest.take (i + 1) = d :: ds := by
      cases rest with
      | nil => simp at hlt
      | cons d ds => exact ⟨d, ds.take i, by simp⟩
    simp only [Function.comp, Nat.succ_eq_add_one, hds, stringsJoin_cons_cons, String.data_append,
      List.append_assoc]

theorem mem_stringsJoin (c : Char) (sep : String) (elems : List String)
    (h : c ∈ (stringsJoin elems sep).data) : c ∈ sep.data ∨ ∃ e ∈ elems, c ∈ e.data := by
  induction elems with
  | nil => simp [stringsJoin, List.intercalate] at h
  | cons a rest ih =>
    cases rest with
    | nil =>
      rw [stringsJoin_singleton] at h
      exact Or.inr ⟨a, List.mem_cons_self _ _, h⟩
    | cons b rest =>
      rw [stringsJoin_cons_cons] at h
      simp only [String.data_append, List.mem_append] at h
      rcases h with h | h | h
      · exact Or.inr ⟨a, List.mem_cons_self _ _, h⟩
      · exact Or.inl h
      · rcases ih h with h1 | ⟨e, he, hce⟩
        · exact Or.inl h1
        · exact Or.inr ⟨e, List.mem_cons_of_mem _ he, hce⟩

theorem utf8ByteSize_append (a b : String) :
    (a ++ b).utf8ByteSize = a.utf8ByteSize + b.utf8ByteSize := by
  cases a with
  | mk as =>
    cases b with
    | mk bs =>
      show String.utf8ByteSize ⟨as ++ bs⟩ = _
      simp only [String.utf8ByteSize_mk, String.utf8Len_append]

theorem stringsHasSuffix_append (a suffix : String) :
    stringsHasSuffix (a ++ suffix) suffix = true := by
  simp [stringsHasSuffix]

theorem stringsTrimSuffix_append (a suffix : String) :
    stringsTrimSuffix (a ++ suffix) suffix = a := by
  rw [stringsTrimSuffix, if_pos (stringsHasSuffix_append a suffix)]
  apply String.ext
  simp

theorem stringsSplit_stringsJoin (es : List String) (c : Char) (hne : es ≠ [])
    (h : ∀ e ∈ es, c ∉ e.data) :
    stringsSplit (stringsJoin es (String.singleton c)) c = es := by
  have h1 : ∀ l ∈ es.map String.data, c ∉ l := by
    intro l hl
    obtain ⟨e, he, rfl⟩ := List.mem_map.1 hl
    exact h e he
  have h2 : es.map String.data ≠ [] := by simpa using hne
  have h3 := List.splitOn_intercalate (es.map String.data) c h1 h2
  simp only [stringsSplit, stringsJoin, String.data_singleton, h3, List.map_map]
  conv_rhs => rw [← List.map_id es]
  apply List.map_congr_left
  intro e _
  rfl

theorem ExpandSlice_stringsJoin (es : List String) (hne : es ≠ [])
    (h : ∀ e ∈ es, e ≠ "" ∧ '-' ∉ e.data ∧ '/' ∉ e.data) :
    ExpandSlice (stringsJoin es "-" ++ ".slice") = .ok (nestedSlicePath es) := by
  have hsize : ¬ (stringsJoin es "-" ++ ".slice").utf8ByteSize < (".slice" : String).utf8ByteSize := by
    rw [utf8ByteSize_append]
    omega
  have hslash : stringsContains (stringsJoin es "-" ++ ".slice") "/" = false := by
    rw [Bool.eq_false_iff]
    intro hc
    have hmem := (stringsContains_char _ '/').1 hc
    rw [String.data_append, List.mem_append] at hmem
    rcases hmem with hmem | hmem
    · rcases mem_stringsJoin '/' "-" es hmem with h1 | ⟨e, he, h1⟩
      · exact absurd h1 (by decide)
      · exact (h e he).2.2 h1
    · exact absurd hmem (by decide)
  have hsplit : stringsSplit (stringsJoin es "-") '-' = es :=
    stringsSplit_stringsJoin es '-' hne (fun e he => (h e he).2.1)
  have hdash : stringsJoin es "-" ≠ "-" := by
    intro hj
    rw [hj] at hsplit
    have h2 : es = ["", ""] := by rw [← hsplit]; decide
    exact (h "" (by rw [h2]; exact List.mem_cons_self _ _)).1 rfl
  have hloop := expandSliceLoop_eq (stringsJoin es "-" ++ ".slice") ".slice" es
    (fun e he => (h e he).1) "" ""
  simp only [ExpandSlice, hsize, decide_False, stringsHasSuffix_append, Bool.not_true,
    Bool.or_self, Bool.false_eq_true, if_false, hslash, stringsTrimSuffix_append, hdash, hsplit,
    hloop, nestedSlicePath]
  congr 1

theorem escape_ne_empty (part : String) (h : part ≠ "") : escapeSystemdCgroupName part ≠ "" := by
  intro he
  apply h
  apply String.ext
  have := congrArg String.data he
  simpa [escapeSystemdCgroupName, stringsReplaceAll] using this

theorem escape_no_dash (part : String) : '-' ∉ (escapeSystemdCgroupName part).data := by
  simp only [escapeSystemdCgroupName, stringsReplaceAll, List.mem_map, not_exists, not_and]
  intro c _
  split
  · decide
  · intro hc
    rename_i hne
    exact hne hc

theorem escape_slash (part : String) (h : '/' ∉ part.data) :
    '/' ∉ (escapeSystemdCgroupName part).data := by
  simp only [escapeSystemdCgroupName, stringsReplaceAll, List.mem_map, not_exists, not_and]
  intro c hc
  split
  · decide
  · intro hc2
    exact h (hc2 ▸ hc)

/-- The systemd form of a name whose segments are non-empty and hold no `/`. -/
theorem ToSystemd_eq (cgroupName : CgroupName) (hne : cgroupName ≠ [])
    (h : ∀ s ∈ cgroupName, s ≠ "" ∧ '/' ∉ s.data) :
    ToSystemd cgroupName = .ok (nestedSlicePath (cgroupName.map escapeSystemdCgroupName)) := by
  have hcond : (cgroupName.length = 0 || (cgroupName.length = 1 && cgroupName.head? = some "")) = false := by
    cases cgroupName with
    | nil => exact absurd rfl hne
    | cons a rest =>
      have ha : a ≠ "" := (h a (List.mem_cons_self _ _)).1
      simp [ha]
  have hes : ∀ e ∈ cgroupName.map escapeSystemdCgroupName, e ≠ "" ∧ '-' ∉ e.data ∧ '/' ∉ e.data := by
    intro e he
    obtain ⟨s, hs, rfl⟩ := List.mem_map.1 he
    exact ⟨escape_ne_empty s (h s hs).1, escape_no_dash s, escape_slash s (h s hs).2⟩
  have hex := ExpandSlice_stringsJoin (cgroupName.map escapeSystemdCgroupName) (by simpa using hne) hes
  simp only [ToSystemd, hcond, Bool.false_eq_true, if_false, systemdSuffix, hex]

theorem ok_bind {α β : Type} (a : α) (f : α → Result β) : (Result.ok a >>= f) = f a := rfl

theorem containerRoot_eq : containerRoot = .ok ["kubepods"] := by decide

/-- The pod segment `"pod" + UID` passes the check of `NewCgroupName`. -/
theorem podContainer_valid (uid : String) (hs : '/' ∉ uid.data) (hu : '_' ∉ uid.data) :
    ∀ c ∈ [PodCgroupNamePrefix ++ uid], '/' ∉ c.data ∧ '_' ∉ c.data := by
  intro c hc
  rw [List.mem_singleton] at hc
  subst hc
  simp only [PodCgroupNamePrefix, String.data_append, List.mem_append, not_or]
  exact ⟨⟨by decide, hs⟩, ⟨by decide, hu⟩⟩

theorem podContainer_ne_empty (uid : String) : PodCgroupNamePrefix ++ uid ≠ "" := by
  intro h
  have := congrArg String.data h
  simp [PodCgroupNamePrefix] at this

/-- The path `getCgroupName` computes once the parent name is known. -/
theorem getCgroupName_of_parent (GetPodQOS : Pod → PodQOSClass) (pod : Pod) (containerID : String)
    (parent : CgroupName)
    (hparent : (if GetPodQOS pod = PodQOSGuaranteed then NewCgroupName ["kubepods"] []
      else if GetPodQOS pod = PodQOSBurstable then
        NewCgroupName ["kubepods"] [stringsToLower PodQOSBurstable]
      else if GetPodQOS pod = PodQOSBestEffort then
        NewCgroupName ["kubepods"] [stringsToLower PodQOSBestEffort]
      else Result.ok []) = .ok parent)
    (hvalid : ∀ s ∈ parent, s ≠ "" ∧ '/' ∉ s.data)
    (hs : '/' ∉ pod.UID.data) (hu : '_' ∉ pod.UID.data) :
    getCgroupName GetPodQOS pod containerID =
      .ok (nestedSlicePath ((parent ++ [PodCgroupNamePrefix ++ pod.UID]).map
        escapeSystemdCgroupName) ++ "/" ++ "crio-conmon" ++ "-" ++ containerID ++ ".scope") := by
  have hnew := NewCgroupName_ok parent [PodCgroupNamePrefix ++ pod.UID]
    (podContainer_valid pod.UID hs hu)
  have hsys := ToSystemd_eq (parent ++ [PodCgroupNamePrefix ++ pod.UID]) (by simp) (by
    intro s hmem
    rcases List.mem_append.1 hmem with h1 | h1
    · exact hvalid s h1
    · have h2 := podContainer_valid pod.UID hs hu s h1
      rw [List.mem_singleton] at h1
      exact ⟨h1 ▸ podContainer_ne_empty pod.UID, h2.1⟩)
  simp only [getCgroupName, containerRoot_eq, ok_bind, hparent, hnew, hsys]

/-- When the status and pod lookups succeed and `os.Lstat` fails on the resolved
root, the single call of the walk callback panics. -/
theorem GetPidsInContainers_of_missing_root (m : containerInfoManager)
    (GetPodQOS : Pod → PodQOSClass) (lstat : String → Option FsNode) (containerID : String)
    (labels : List (String × String)) (pod : Pod) (cgroupPath : String)
    (hstatus : m.ContainerStatus containerID = .ok ⟨some labels⟩)
    (hpod : m.podCache.GetPod (labelOf labels PodNamespaceLabelKey)
      (labelOf labels PodNameLabelKey) = .ok pod)
    (hpath : getCgroupName GetPodQOS pod containerID = .ok cgroupPath)
    (hmissing : lstat (filepathClean (filepathJoin CGROUP_BASE cgroupPath)) = none) :
    m.GetPidsInContainers GetPodQOS lstat containerID = .panic .nilDereference := by
  simp only [containerInfoManager.GetPidsInContainers, hstatus, ok_bind, hpod, hpath,
    filepathWalk, hmissing, walkAll, walkFn]

theorem notRunning_iff (statuses : List ContainerStatus) :
    notRunning statuses = true ↔
      ∀ st ∈ statuses, st.State.Terminated ≠ none ∨ st.State.Waiting ≠ none := by
  induction statuses with
  | nil => simp [notRunning]
  | cons st rest ih =>
    rw [notRunning]
    by_cases h : st.State.Terminated = none ∧ st.State.Waiting = none
    · rw [if_pos h]
      constructor
      · intro hf
        cases hf
      · intro hall
        rcases hall st (List.mem_cons_self _ _) with h1 | h1
        · exact absurd h.1 h1
        · exact absurd h.2 h1
    · rw [if_neg h, ih]
      constructor
      · intro hall x hx
        rcases List.mem_cons.1 hx with rfl | hx
        · by_cases ht : x.State.Terminated = none
          · exact Or.inr (fun hw => h ⟨ht, hw⟩)
          · exact Or.inl ht
        · exact hall x hx
      · intro hall x hx
        exact hall x (List.mem_cons_of_mem _ hx)

theorem podIsTerminated_eq_true (pod : Pod) :
    podIsTerminated pod = true ↔
      (pod.Status.Phase = PodFailed ∨ pod.Status.Phase = PodSucceeded ∨
        (pod.DeletionTimestamp ≠ none ∧
          ∀ st ∈ pod.Status.ContainerStatuses,
            st.State.Terminated ≠ none ∨ st.State.Waiting ≠ none)) := by
  simp only [podIsTerminated, Bool.or_eq_true, Bool.and_eq_true, beq_iff_eq, bne_iff_ne,
    notRunning_iff, or_assoc]

theorem parseDigits_eq (ds : List Char) (n : Nat) :
    parseDigits ds n =
      if ds.all (fun d => decide ('0' ≤ d ∧ d ≤ '9')) = true then
        some (ds.foldl (fun n d => n * 10 + (d.toNat - '0'.toNat)) n)
      else none := by
  induction ds generalizing n with
  | nil => simp [parseDigits]
  | cons d rest ih =>
    rw [parseDigits]
    by_cases hd : '0' ≤ d ∧ d ≤ '9'
    · rw [if_pos hd, ih]
      simp [List.all_cons, hd]
    · rw [if_neg hd]
      simp [List.all_cons, hd]

theorem strconvAtoi_eq (s : String) :
    strconvAtoi s = (decimalValue s).filter fitsInt := by
  unfold strconvAtoi decimalValue
  cases s.data with
  | nil => rfl
  | cons c cs =>
    simp only [parseDigits_eq]
    generalize (if c = '-' ∨ c = '+' then cs else c :: cs) = digits
    by_cases hne : digits = []
    · simp [hne]
    · by_cases hall : digits.all (fun d => decide ('0' ≤ d ∧ d ≤ '9')) = true
      · simp only [hne, hall, if_true, if_false, ne_eq, not_false_eq_true, and_self,
          Option.filter, fitsInt]
        split <;> simp_all
      · simp only [hne, hall, if_false, ne_eq, not_false_eq_true, and_false, Option.filter,
          Bool.false_eq_true]

theorem filterMap_takeWhile_append_nil {β : Type} (f : List Char → Option β)
    (p : List Char → Bool) (hf : f [] = none) (hp : p [] = true) (init : List (List Char)) :
    (((init ++ [[]]).takeWhile p).filterMap f) = (init.takeWhile p).filterMap f := by
  induction init with
  | nil => simp [List.takeWhile_cons, hp, hf]
  | cons a rest ih =>
    simp only [List.cons_append, List.takeWhile_cons]
    split
    · simp only [List.filterMap_cons, ih]
    · rfl

theorem filterMap_takeWhile_scanLines {β : Type} (f : List Char → Option β)
    (p : List Char → Bool) (hf : f [] = none) (hp : p [] = true) (data : List Char) :
    ((scanLines data).takeWhile p).filterMap f =
      ((data.splitOn '\n').takeWhile p).filterMap f := by
  unfold scanLines
  by_cases h : (data.splitOn '\n').getLast? = some []
  · simp only [h, if_true]
    have h2 := List.dropLast_append_getLast? [] (by rw [h]; exact rfl)
    conv_rhs => rw [← h2]
    exact (filterMap_takeWhile_append_nil f p hf hp _).symm
  · simp only [h, if_false]

/-- The PIDs `readProcsFile` returns for a file that opens. -/
theorem readProcsFile_eq (content : String) :
    readProcsFile (some content) = .ok (decimalLinesInRange content) := by
  simp only [readProcsFile, scannerTokens, decimalLinesInRange, linesOf, stringsSplit,
    List.filterMap_map, List.takeWhile_map]
  rw [filterMap_takeWhile_scanLines _ _ (by decide) (by decide)]
  congr 1
  apply List.filterMap_congr
  intro line _
  simp only [Function.comp, strconvAtoi_eq, trimCR]

theorem utf8Len_replicate_x (n : Nat) : String.utf8Len (List.replicate n 'x') = n := by
  induction n with
  | zero => rfl
  | succ k ih =>
    rw [List.replicate_succ, String.utf8Len_cons, ih]
    rfl

theorem linesOf_longLine : linesOf (longLine ++ "\n7") = [longLine, "7"] := by
  have h := List.splitOnP_first (fun c : Char => c == '\n') (List.replicate MaxScanTokenSize 'x')
    (by
      intro c hc
      rw [List.eq_of_mem_replicate hc]
      decide) '\n' (by decide) ['7']
  simp only [linesOf, stringsSplit, String.data_append, longLine]
  show List.map String.mk (List.splitOnP (fun c : Char => c == '\n')
    (List.replicate MaxScanTokenSize 'x' ++ '\n' :: ['7'])) = _
  rw [h]
  rfl

theorem decimalValue_longLine : decimalValue longLine = none := by
  have h : longLine.data = 'x' :: List.replicate 65535 'x' := by
    show List.replicate (65535 + 1) 'x' = _
    rw [List.replicate_succ]
  unfold decimalValue
  rw [h]
  generalize List.replicate 65535 'x' = tail
  simp [List.all_cons]

theorem utf8ByteSize_longLine : longLine.utf8ByteSize = MaxScanTokenSize := by
  show String.utf8Len (List.replicate MaxScanTokenSize 'x') = _
  exact utf8Len_replicate_x _

theorem walkAll_append (a b : List WalkVisit) (pids : List Int) :
    walkAll (a ++ b) pids = (walkAll a pids >>= walkAll b) := by
  induction a generalizing pids with
  | nil => rfl
  | cons v rest ih =>
    simp only [List.cons_append, walkAll]
    cases walkFn pids v with
    | ok pids1 => exact ih pids1
    | error e => rfl
    | panic p => rfl

theorem walkAll_file (name : String) (opened : Option String) (pids : List Int) :
    walkAll [⟨some ⟨name, false⟩, false, opened⟩] pids =
      .ok (pids ++ (if name = CGROUP_PROCS then procsPids opened else [])) := by
  by_cases hname : name = CGROUP_PROCS
  · subst hname
    cases opened <;> simp [walkAll, walkFn, procsPids, readProcsFile]
  · simp [walkAll, walkFn, hname]

theorem panic_bind {α β : Type} (v : PanicValue) (f : α → Result β) :
    ((Result.panic v : Result α) >>= f) = .panic v := rfl

mutual
/-- The walk at and below a node: when `Lstat` succeeds on every entry it appends, in
walk order, the PIDs of the `cgroup.procs` files; otherwise the callback panics on
the first entry with a nil `info`. -/
theorem walkAll_walkVisits : ∀ (node : FsNode) (pids : List Int),
    walkAll (walkVisits node) pids =
      if allStat node = true then
        .ok (pids ++ (procsFilesUnder node).flatMap procsPids)
      else .panic .nilDereference
  | .file name opened, pids => by
    rw [walkVisits, walkAll_file, procsFilesUnder, allStat, if_pos rfl]
    split <;> simp
  | .dir name entries, pids => by
    rw [walkVisits, procsFilesUnder, allStat]
    show walkAll (walkVisits.walkEntries entries) pids = _
    exact walkAll_walkEntries entries pids
  | .gone name, pids => by
    simp [walkVisits, allStat, walkAll, walkFn]
theorem walkAll_walkEntries : ∀ (entries : List FsNode) (pids : List Int),
    walkAll (walkVisits.walkEntries entries) pids =
      if allStat.allStatIn entries = true then
        .ok (pids ++ (procsFilesUnder.procsFilesIn entries).flatMap procsPids)
      else .panic .nilDereference
  | [], pids => by
    simp [walkVisits.walkEntries, procsFilesUnder.procsFilesIn, allStat.allStatIn, walkAll]
  | entry :: rest, pids => by
    rw [walkVisits.walkEntries, procsFilesUnder.procsFilesIn, allStat.allStatIn, walkAll_append,
      walkAll_walkVisits entry pids]
    by_cases h1 : allStat entry = true
    · rw [if_pos h1, ok_bind, walkAll_walkEntries rest]
      by_cases h2 : allStat.allStatIn rest = true
      · simp [h1, h2]
      · simp [h1, h2]
    · rw [if_neg h1, panic_bind]
      simp [h1]
end

/-- When the status and pod lookups succeed, `os.Lstat` finds the resolved root and
succeeds on every entry listed below it, `GetPidsInContainers` returns the PIDs of
the `cgroup.procs` files at and below the root. -/
theorem GetPidsInContainers_of_root (m : containerInfoManager)
    (GetPodQOS : Pod → PodQOSClass) (lstat : String → Option FsNode) (containerID : String)
    (labels : List (String × String)) (pod : Pod) (cgroupPath : String) (node : FsNode)
    (hstatus : m.ContainerStatus containerID = .ok ⟨some labels⟩)
    (hpod : m.podCache.GetPod (labelOf labels PodNamespaceLabelKey)
      (labelOf labels PodNameLabelKey) = .ok pod)
    (hpath : getCgroupName GetPodQOS pod containerID = .ok cgroupPath)
    (hroot : lstat (filepathClean (filepathJoin CGROUP_BASE cgroupPath)) = some node)
    (hstat : allStat node = true) :
    m.GetPidsInContainers GetPodQOS lstat containerID =
      .ok ((procsFilesUnder node).flatMap procsPids) := by
  simp only [containerInfoManager.GetPidsInContainers, hstatus, ok_bind, hpod, hpath,
    filepathWalk, hroot, walkAll_walkVisits, hstat, if_true, List.nil_append]

/-- When the status and pod lookups succeed and `os.Lstat` finds the resolved root
but fails on an entry listed below it, `GetPidsInContainers` panics. -/
theorem GetPidsInContainers_of_gone (m : containerInfoManager)
    (GetPodQOS : Pod → PodQOSClass) (lstat : String → Option FsNode) (containerID : String)
    (labels : List (String × String)) (pod : Pod) (cgroupPath : String) (node : FsNode)
    (hstatus : m.ContainerStatus containerID = .ok ⟨some labels⟩)
    (hpod : m.podCache.GetPod (labelOf labels PodNamespaceLabelKey)
      (labelOf labels PodNameLabelKey) = .ok pod)
    (hpath : getCgroupName GetPodQOS pod containerID = .ok cgroupPath)
    (hroot : lstat (filepathClean (filepathJoin CGROUP_BASE cgroupPath)) = some node)
    (hstat : allStat node = false) :
    m.GetPidsInContainers GetPodQOS lstat containerID = .panic .nilDereference := by
  simp only [containerInfoManager.GetPidsInContainers, hstatus, ok_bind, hpod, hpath,
    filepathWalk, hroot, walkAll_walkVisits, hstat, Bool.false_eq_true, if_false]

theorem mem_stringsJoin_of_mem (c : Char) (sep : String) (elems : List String) (e : String)
    (he : e ∈ elems) (hc : c ∈ e.data) : c ∈ (stringsJoin elems sep).data := by
  induction elems with
  | nil => cases he
  | cons a rest ih =>
    cases rest with
    | nil =>
      rw [List.mem_singleton] at he
      rw [stringsJoin_singleton, ← he]
      exact hc
    | cons b rest =>
      rw [stringsJoin_cons_cons]
      simp only [String.data_append, List.mem_append]
      rcases List.mem_cons.1 he with h1 | h1
      · exact Or.inl (h1 ▸ hc)
      · exact Or.inr (Or.inr (ih h1))

theorem stringsJoin_stringsSplit (s : String) (c : Char) :
    stringsJoin (stringsSplit s c) (String.singleton c) = s := by
  apply String.ext
  simp only [stringsJoin, stringsSplit, String.data_singleton, List.map_map]
  have h : (String.data ∘ String.mk) = (id : List Char → List Char) := rfl
  rw [h, List.map_id]
  exact List.intercalate_splitOn _ c

/-- A character of a line of the content is a character of the content. -/
theorem mem_of_mem_linesOf (content line : String) (c : Char) (hl : line ∈ linesOf content)
    (hc : c ∈ line.data) : c ∈ content.data := by
  have h := mem_stringsJoin_of_mem c (String.singleton '\n') (stringsSplit content '\n') line hl hc
  rwa [stringsJoin_stringsSplit] at h

theorem dropCR_subset (data : List Char) : dropCR data ⊆ data := by
  unfold dropCR
  split
  · exact List.dropLast_subset data
  · exact List.Subset.refl data

/-- The shape of a line that consists entirely of a decimal integer. -/
theorem decimalValue_eq_some (line : String) (v : Int) (h : decimalValue line = some v) :
    ∃ c cs, line.data = c :: cs ∧
      (if c = '-' ∨ c = '+' then cs else c :: cs).all
        (fun d => decide ('0' ≤ d ∧ d ≤ '9')) = true ∧
      v = (if c = '-' then
        -(((if c = '-' ∨ c = '+' then cs else c :: cs).foldl
          (fun n d => n * 10 + (d.toNat - '0'.toNat)) 0 : Nat) : Int)
        else (((if c = '-' ∨ c = '+' then cs else c :: cs).foldl
          (fun n d => n * 10 + (d.toNat - '0'.toNat)) 0 : Nat) : Int)) := by
  unfold decimalValue at h
  cases hd : line.data with
  | nil => simp [hd] at h
  | cons c cs =>
    refine ⟨c, cs, rfl, ?_⟩
    simp only [hd] at h
    by_cases hcond : (if c = '-' ∨ c = '+' then cs else c :: cs) ≠ [] ∧
        (if c = '-' ∨ c = '+' then cs else c :: cs).all
          (fun d => decide ('0' ≤ d ∧ d ≤ '9')) = true
    · rw [if_pos hcond] at h
      exact ⟨hcond.2, (Option.some.inj h).symm⟩
    · rw [if_neg hcond] at h
      cases h

/-- The characters of a line that consists entirely of a decimal integer. -/
theorem decimalValue_chars (line : String) (v : Int) (h : decimalValue line = some v) :
    ∀ ch ∈ line.data, ch = '-' ∨ ch = '+' ∨ ('0' ≤ ch ∧ ch ≤ '9') := by
  obtain ⟨c, cs, hd, hall, _⟩ := decimalValue_eq_some line v h
  rw [List.all_eq_true] at hall
  intro ch hch
  rw [hd] at hch
  by_cases hsign : c = '-' ∨ c = '+'
  · rw [if_pos hsign] at hall
    rcases List.mem_cons.1 hch with h1 | h1
    · rcases hsign with h2 | h2
      · exact Or.inl (h1.trans h2)
      · exact Or.inr (Or.inl (h1.trans h2))
    · exact Or.inr (Or.inr (by simpa using hall ch h1))
  · rw [if_neg hsign] at hall
    exact Or.inr (Or.inr (by simpa using hall ch hch))

theorem decimalValue_nonneg (line : String) (v : Int) (h : decimalValue line = some v)
    (hminus : '-' ∉ line.data) : 0 ≤ v := by
  obtain ⟨c, cs, hd, _, hv⟩ := decimalValue_eq_some line v h
  have hc : c ≠ '-' := by
    intro hc
    apply hminus
    rw [hd, hc]
    exact List.mem_cons_self _ _
  rw [if_neg hc] at hv
  rw [hv]
  exact Int.ofNat_nonneg _

/-- A PID of the list read from a file content fits `int`, and is not negative when
the content holds no `-`. -/
theorem mem_decimalLinesInRange (content : String) (pid : Int)
    (h : pid ∈ decimalLinesInRange content) :
    fitsInt pid = true ∧ ('-' ∉ content.data → 0 ≤ pid) := by
  simp only [decimalLinesInRange, List.mem_filterMap, Option.filter_eq_some] at h
  obtain ⟨line, hline, hval, hfit⟩ := h
  refine ⟨hfit, ?_⟩
  intro hminus
  apply decimalValue_nonneg (trimCR line) pid hval
  intro hc
  apply hminus
  exact mem_of_mem_linesOf content line '-' ((List.takeWhile_sublist _).subset hline)
    (dropCR_subset line.data hc)

theorem mem_procsPids (opened : Option String) (pid : Int) (h : pid ∈ procsPids opened) :
    fitsInt pid = true := by
  cases opened with
  | none => simp [procsPids, readProcsFile] at h
  | some content =>
    rw [procsPids, readProcsFile_eq] at h
    exact (mem_decimalLinesInRange content pid h).1

theorem walkAll_mem (visits : List WalkVisit) (acc pids : List Int)
    (h : walkAll visits acc = .ok pids) (pid : Int) (hpid : pid ∈ pids) :
    pid ∈ acc ∨ ∃ v ∈ visits, pid ∈ procsPids v.opened := by
  induction visits generalizing acc with
  | nil =>
    simp only [walkAll, Result.ok.injEq] at h
    exact Or.inl (h ▸ hpid)
  | cons v rest ih =>
    rw [walkAll] at h
    cases hfn : walkFn acc v with
    | error e => simp [hfn] at h
    | panic p => simp [hfn] at h
    | ok acc1 =>
      simp only [hfn] at h
      have hacc1 : ∀ q ∈ acc1, q ∈ acc ∨ q ∈ procsPids v.opened := by
        intro q hq
        unfold walkFn at hfn
        split at hfn
        · cases hfn
        · split at hfn
          · simp only [Result.ok.injEq] at hfn
            exact Or.inl (hfn ▸ hq)
          · unfold procsPids
            split at hfn
            · rename_i p hp
              simp only [Result.ok.injEq] at hfn
              rw [← hfn, List.mem_append] at hq
              rcases hq with hq | hq
              · exact Or.inl hq
              · exact Or.inr hq
            · simp only [Result.ok.injEq] at hfn
              exact Or.inl (hfn ▸ hq)
      rcases ih acc1 h with h1 | ⟨w, hw, hmem⟩
      · rcases hacc1 pid h1 with h2 | h2
        · exact Or.inl h2
        · exact Or.inr ⟨v, List.mem_cons_self _ _, h2⟩
      · exact Or.inr ⟨w, List.mem_cons_of_mem _ hw, hmem⟩

theorem bind_eq_ok {α β : Type} (r : Result α) (f : α → Result β) (b : β)
    (h : (r >>= f) = .ok b) : ∃ a, r = .ok a ∧ f a = .ok b := by
  cases r with
  | ok a => exact ⟨a, rfl, h⟩
  | error e => cases h
  | panic p => cases h

/-- Every PID that `GetPidsInContainers` returns fits `int`. -/
theorem GetPidsInContainers_mem (m : containerInfoManager) (GetPodQOS : Pod → PodQOSClass)
    (lstat : String → Option FsNode) (containerID : String) (pids : List Int)
    (h : m.GetPidsInContainers GetPodQOS lstat containerID = .ok pids) (pid : Int)
    (hpid : pid ∈ pids) : fitsInt pid = true := by
  unfold containerInfoManager.GetPidsInContainers at h
  obtain ⟨resp, _, h⟩ := bind_eq_ok _ _ _ h
  obtain ⟨labels, _, h⟩ := bind_eq_ok _ _ _ h
  obtain ⟨pod, _, h⟩ := bind_eq_ok _ _ _ h
  obtain ⟨cgroupPath, _, h⟩ := bind_eq_ok _ _ _ h
  rcases walkAll_mem _ _ _ h pid hpid with h1 | ⟨v, _, hv⟩
  · cases h1
  · exact mem_procsPids v.opened pid hv

/-- A line that consists entirely of a decimal integer ends in no carriage return. -/
theorem trimCR_of_decimalValue (line : String) (v : Int) (h : decimalValue line = some v) :
    trimCR line = line := by
  have hchars := decimalValue_chars line v h
  apply String.ext
  show dropCR line.data = line.data
  unfold dropCR
  split
  · rename_i hlast
    have hmem := List.mem_of_getLast?_eq_some hlast
    rcases hchars '\r' hmem with h1 | h1 | h1
    · exact absurd h1 (by decide)
    · exact absurd h1 (by decide)
    · exact absurd h1.1 (by decide)
  · rfl

theorem decimalValue_no_newline (line : String) (v : Int) (h : decimalValue line = some v) :
    '\n' ∉ line.data := by
  intro hmem
  rcases decimalValue_chars line v h '\n' hmem with h1 | h1 | h1
  · exact absurd h1 (by decide)
  · exact absurd h1 (by decide)
  · exact absurd h1.1 (by decide)

/-- The lines of the content made of the given lines joined by newlines. -/
theorem linesOf_stringsJoin (tokens : List String) (hne : tokens ≠ [])
    (h : ∀ t ∈ tokens, '\n' ∉ t.data) : linesOf (stringsJoin tokens "\n") = tokens :=
  stringsSplit_stringsJoin tokens '\n' hne h

/-- The PIDs read from a content whose lines are empty or decimal integers in range. -/
theorem readProcsFile_stringsJoin (tokens : List String)
    (h : ∀ t ∈ tokens, t = "" ∨ (t.utf8ByteSize < MaxScanTokenSize ∧
      ∃ v, decimalValue t = some v ∧ fitsInt v = true)) :
    readProcsFile (some (stringsJoin tokens "\n")) = .ok (tokens.filterMap decimalValue) := by
  rw [readProcsFile_eq]
  congr 1
  cases tokens with
  | nil => decide
  | cons t rest =>
    have hnl : ∀ s ∈ t :: rest, '\n' ∉ s.data := by
      intro s hs
      rcases h s hs with h1 | ⟨_, v, hv, _⟩
      · rw [h1]
        decide
      · exact decimalValue_no_newline s v hv
    have hshort : ∀ s ∈ t :: rest,
        (fun line : String => decide (line.utf8ByteSize < MaxScanTokenSize)) s = true := by
      intro s hs
      rcases h s hs with h1 | ⟨h2, _⟩
      · rw [h1]
        decide
      · simpa using h2
    rw [decimalLinesInRange, linesOf_stringsJoin (t :: rest) (by simp) hnl,
      List.takeWhile_eq_self_iff.2 hshort]
    apply List.filterMap_congr
    intro s hs
    rcases h s hs with h1 | ⟨_, v, hv, hfit⟩
    · rw [h1]
      decide
    · rw [trimCR_of_decimalValue s v hv, hv]
      simp [Option.filter, hfit]

theorem sumLimits_of_zero (resourceName : String) (containers : List Container) (total : Nat)
    (ht : total < 2 ^ 64)
    (h : ∀ c ∈ containers, ∀ v, limitOf c.Limits resourceName = some v → v = 0) :
    sumLimits resourceName containers total = total := by
  induction containers generalizing total with
  | nil => rfl
  | cons c rest ih =>
    have hrest : ∀ d ∈ rest, ∀ v, limitOf d.Limits resourceName = some v → v = 0 :=
      fun d hd => h d (List.mem_cons_of_mem _ hd)
    rw [sumLimits]
    cases hl : limitOf c.Limits resourceName with
    | none => exact ih total ht hrest
    | some v =>
      have hv : v = 0 := h c (List.mem_cons_self _ _) v hl
      subst hv
      have h0 : (total + toUint 0) % 2 ^ 64 = total := by
        show (total + 0) % 2 ^ 64 = total
        exact Nat.mod_eq_of_lt ht
      simp only [h0]
      exact ih total ht hrest

theorem sum_filterMap_pos (resourceName : String) (containers : List Container)
    (hnonneg : ∀ c ∈ containers, ∀ v, limitOf c.Limits resourceName = some v → 0 ≤ v)
    (hsome : ∃ c ∈ containers, ∃ v, limitOf c.Limits resourceName = some v ∧ v ≠ 0) :
    1 ≤ (containers.filterMap (fun c => limitOf c.Limits resourceName)).sum := by
  induction containers with
  | nil =>
    obtain ⟨c, hc, _⟩ := hsome
    cases hc
  | cons c rest ih =>
    have hrest : ∀ d ∈ rest, ∀ v, limitOf d.Limits resourceName = some v → 0 ≤ v :=
      fun d hd => hnonneg d (List.mem_cons_of_mem _ hd)
    have hsum : 0 ≤ (rest.filterMap (fun c => limitOf c.Limits resourceName)).sum := by
      apply List.sum_nonneg
      intro v hv
      obtain ⟨d, hd, hdv⟩ := List.mem_filterMap.1 hv
      exact hrest d hd v hdv
    cases hl : limitOf c.Limits resourceName with
    | none =>
      simp only [List.filterMap_cons, hl]
      apply ih hrest
      obtain ⟨d, hd, v, hv, hv0⟩ := hsome
      rcases List.mem_cons.1 hd with h1 | h1
      · rw [h1, hl] at hv
        cases hv
      · exact ⟨d, h1, v, hv, hv0⟩
    | some w =>
      simp only [List.filterMap_cons, hl, List.sum_cons]
      have hw : 0 ≤ w := hnonneg c (List.mem_cons_self _ _) w hl
      by_cases hw0 : w = 0
      · have : 1 ≤ (rest.filterMap (fun c => limitOf c.Limits resourceName)).sum := by
          apply ih hrest
          obtain ⟨d, hd, v, hv, hv0⟩ := hsome
          rcases List.mem_cons.1 hd with h1 | h1
          · rw [h1, hl] at hv
            exact absurd (hw0 ▸ (Option.some.inj hv).symm) hv0
          · exact ⟨d, h1, v, hv, hv0⟩
        omega
      · omega

/-- With GPU limits that are not negative, a pod that passes `IsGPURequiredPod` has an
integer total of at least one for one of the two resources. -/
theorem limitTotal_of_IsGPURequiredPod (pod : Pod)
    (hnonneg : ∀ r, ∀ c ∈ pod.Spec.Containers, ∀ v, limitOf c.Limits r = some v → 0 ≤ v)
    (h : IsGPURequiredPod pod = true) :
    1 ≤ limitTotal pod Danavgpu ∨ 1 ≤ limitTotal pod Nvidiagpu := by
  by_contra hno
  rw [not_or] at hno
  have hzero : ∀ r, ¬ 1 ≤ limitTotal pod r → GetGPUResourceOfPod pod r = 0 := by
    intro r hr
    apply sumLimits_of_zero r pod.Spec.Containers 0 (by decide)
    intro c hc v hv
    by_contra hv0
    exact hr (sum_filterMap_pos r pod.Spec.Containers (hnonneg r) ⟨c, hc, v, hv, hv0⟩)
  have h1 := hzero Danavgpu hno.1
  have h2 := hzero Nvidiagpu hno.2
  simp [IsGPURequiredPod, h1, h2] at h

theorem unescape_escape (s : String) (h : '_' ∉ s.data) :
    stringsReplaceAll (escapeSystemdCgroupName s) '_' '-' = s := by
  apply String.ext
  simp only [escapeSystemdCgroupName, stringsReplaceAll, List.map_map]
  conv_rhs => rw [← List.map_id s.data]
  apply List.map_congr_left
  intro c hc
  have hne : c ≠ '_' := fun hc2 => h (hc2 ▸ hc)
  by_cases hd : c = '-'
  · simp [Function.comp, hd]
  · simp [Function.comp, hd, hne]

theorem stringsJoin_cons_eq (p : String) (ps : List String) :
    stringsJoin (p :: ps) "/" = p ++ String.join (ps.map (fun q => "/" ++ q)) := by
  induction ps generalizing p with
  | nil =>
    rw [stringsJoin_singleton]
    apply String.ext
    simp [String.join]
  | cons q rest ih =>
    rw [stringsJoin_cons_cons, ih q]
    apply String.ext
    simp [List.append_assoc]

/-- The nested slice path as its slice components joined by `/`, after a leading
empty component. -/
theorem nestedSlicePath_eq_stringsJoin (es : List String) :
    nestedSlicePath es = stringsJoin ("" :: (List.range es.length).map
      (fun i => stringsJoin (es.take (i + 1)) "-" ++ ".slice")) "/" := by
  rw [stringsJoin_cons_eq, nestedSlicePath, List.map_map]
  apply String.ext
  simp only [String.data_append, String.data_join, List.map_map]
  show _ = ([] : List Char) ++ _
  rw [List.nil_append]
  congr 1

theorem slice_component_no_slash (es : List String) (h : ∀ e ∈ es, '/' ∉ e.data)
    (piece : String)
    (hp : piece ∈ "" :: (List.range es.length).map
      (fun i => stringsJoin (es.take (i + 1)) "-" ++ ".slice")) :
    '/' ∉ piece.data := by
  rcases List.mem_cons.1 hp with h1 | h1
  · rw [h1]
    decide
  · obtain ⟨i, _, rfl⟩ := List.mem_map.1 h1
    intro hmem
    rw [String.data_append, List.mem_append] at hmem
    rcases hmem with hmem | hmem
    · rcases mem_stringsJoin '/' "-" _ hmem with h2 | ⟨e, he, h2⟩
      · exact absurd h2 (by decide)
      · exact h e (List.mem_of_mem_take he) h2
    · exact absurd hmem (by decide)

/-- The last slice component of the nested path of a non-empty name. -/
theorem getLastD_stringsSplit_nestedSlicePath (es : List String) (hne : es ≠ [])
    (h : ∀ e ∈ es, '/' ∉ e.data) :
    (stringsSplit (nestedSlicePath es) '/').getLastD "" = stringsJoin es "-" ++ ".slice" := by
  have hsplit : stringsSplit (stringsJoin ("" :: (List.range es.length).map
      (fun i => stringsJoin (es.take (i + 1)) "-" ++ ".slice")) "/") '/' =
      "" :: (List.range es.length).map
        (fun i => stringsJoin (es.take (i + 1)) "-" ++ ".slice") :=
    stringsSplit_stringsJoin _ '/' (by simp) (slice_component_no_slash es h)
  rw [nestedSlicePath_eq_stringsJoin, hsplit]
  obtain ⟨k, hk⟩ : ∃ k, es.length = k + 1 := by
    cases es with
    | nil => exact absurd rfl hne
    | cons e rest => exact ⟨rest.length, rfl⟩
  rw [hk, List.range_succ, List.map_append, List.map_singleton, ← List.cons_append,
    List.getLastD_concat, ← hk, List.take_length]

theorem recoverSegments_nestedSlicePath (cgroupName : CgroupName) (hne : cgroupName ≠ [])
    (h : ∀ s ∈ cgroupName, '/' ∉ s.data ∧ '_' ∉ s.data) :
    recoverSegments (nestedSlicePath (cgroupName.map escapeSystemdCgroupName)) = cgroupName := by
  have hslash : ∀ e ∈ cgroupName.map escapeSystemdCgroupName, '/' ∉ e.data := by
    intro e he
    obtain ⟨s, hs, rfl⟩ := List.mem_map.1 he
    exact escape_slash s (h s hs).1
  have hdash : ∀ e ∈ cgroupName.map escapeSystemdCgroupName, '-' ∉ e.data := by
    intro e he
    obtain ⟨s, _, rfl⟩ := List.mem_map.1 he
    exact escape_no_dash s
  have hne2 : cgroupName.map escapeSystemdCgroupName ≠ [] := by simpa using hne
  have hsplit : stringsSplit (stringsJoin (cgroupName.map escapeSystemdCgroupName) "-") '-' =
      cgroupName.map escapeSystemdCgroupName :=
    stringsSplit_stringsJoin _ '-' hne2 hdash
  simp only [recoverSegments]
  rw [getLastD_stringsSplit_nestedSlicePath _ hne2 hslash, stringsTrimSuffix_append,
    hsplit, List.map_map]
  conv_rhs => rw [← List.map_id cgroupName]
  apply List.map_congr_left
  intro s hs
  exact unescape_escape s (h s hs).2

/-- The segments of a non-empty name are read back from its systemd form. -/
theorem recoverSegments_ToSystemd (cgroupName : CgroupName) (out : String)
    (hne : cgroupName ≠ [])
    (h : ∀ s ∈ cgroupName, s ≠ "" ∧ '/' ∉ s.data ∧ '_' ∉ s.data)
    (hout : ToSystemd cgroupName = .ok out) : recoverSegments out = cgroupName := by
  rw [ToSystemd_eq cgroupName hne (fun s hs => ⟨(h s hs).1, (h s hs).2.1⟩),
    Result.ok.injEq] at hout
  rw [← hout]
  exact recoverSegments_nestedSlicePath cgroupName hne (fun s hs => (h s hs).2)

theorem ToSystemd_injective (a b : CgroupName)
    (ha : ∀ s ∈ a, s ≠ "" ∧ '/' ∉ s.data ∧ '_' ∉ s.data)
    (hb : ∀ s ∈ b, s ≠ "" ∧ '/' ∉ s.data ∧ '_' ∉ s.data)
    (h : ToSystemd a = ToSystemd b) : a = b := by
  have hroot : recoverSegments "/" = [""] := by decide
  have hnil : ∀ c : CgroupName, (∀ s ∈ c, s ≠ "" ∧ '/' ∉ s.data ∧ '_' ∉ s.data) →
      ToSystemd c = .ok "/" → c = [] := by
    intro c hc hout
    by_contra hne
    have hrec := recoverSegments_ToSystemd c "/" hne hc hout
    rw [hroot] at hrec
    exact (hc "" (by rw [← hrec]; exact List.mem_singleton_self _)).1 rfl
  by_cases hanil : a = []
  · subst hanil
    exact (hnil b hb h.symm).symm
  · have houta := ToSystemd_eq a hanil (fun s hs => ⟨(ha s hs).1, (ha s hs).2.1⟩)
    have hreca := recoverSegments_ToSystemd a _ hanil ha houta
    by_cases hbnil : b = []
    · subst hbnil
      exact hnil a ha h
    · rw [h] at houta
      have hrecb := recoverSegments_ToSystemd b _ hbnil hb houta
      rw [← hreca, ← hrecb]

/-- A name that `NewCgroupName` returns holds the accepted components after the base. -/
theorem NewCgroupName_eq_ok (base : CgroupName) (components : List String) (r : CgroupName)
    (h : NewCgroupName base components = .ok r) :
    r = base ++ components ∧ ∀ c ∈ components, '/' ∉ c.data ∧ '_' ∉ c.data := by
  have hvalid : ∀ c ∈ components, '/' ∉ c.data ∧ '_' ∉ c.data := by
    by_contra hno
    have hbad : ∃ c ∈ components, '/' ∈ c.data ∨ '_' ∈ c.data := by
      by_contra hnone
      apply hno
      intro c hc
      constructor
      · intro h1
        exact hnone ⟨c, hc, Or.inl h1⟩
      · intro h1
        exact hnone ⟨c, hc, Or.inr h1⟩
    obtain ⟨c, hc⟩ := NewCgroupName_panic base components hbad
    rw [hc] at h
    cases h
  rw [NewCgroupName_ok base components hvalid, Result.ok.injEq] at h
  exact ⟨h.symm, hvalid⟩

/-- A pod for which `getCgroupName` returns a path has a UID without `/` and `_`. -/
theorem getCgroupName_ok_uid (GetPodQOS : Pod → PodQOSClass) (pod : Pod)
    (containerID path : String) (h : getCgroupName GetPodQOS pod containerID = .ok path) :
    '/' ∉ pod.UID.data ∧ '_' ∉ pod.UID.data := by
  unfold getCgroupName at h
  obtain ⟨root, _, h⟩ := bind_eq_ok _ _ _ h
  obtain ⟨parent, _, h⟩ := bind_eq_ok _ _ _ h
  obtain ⟨cg, hcg, _⟩ := bind_eq_ok _ _ _ h
  have hvalid := (NewCgroupName_eq_ok parent _ cg hcg).2 _ (List.mem_singleton_self _)
  simp only [PodCgroupNamePrefix, String.data_append, List.mem_append, not_or] at hvalid
  exact ⟨hvalid.1.2, hvalid.2.2⟩

/-- An underscore of the systemd form stands where a segment of the name has a dash. -/
theorem underscore_of_ToSystemd (cgroupName : CgroupName) (out : String)
    (h : ∀ s ∈ cgroupName, s ≠ "" ∧ '/' ∉ s.data ∧ '_' ∉ s.data)
    (hout : ToSystemd cgroupName = .ok out) (hmem : '_' ∈ out.data) :
    ∃ s ∈ cgroupName, '-' ∈ s.data := by
  by_cases hne : cgroupName = []
  · subst hne
    have h1 : out = "/" := by
      have h2 : ToSystemd [] = .ok "/" := by decide
      rw [h2, Result.ok.injEq] at hout
      exact hout.symm
    rw [h1] at hmem
    exact absurd hmem (by decide)
  · rw [ToSystemd_eq cgroupName hne (fun s hs => ⟨(h s hs).1, (h s hs).2.1⟩),
      Result.ok.injEq] at hout
    rw [← hout, nestedSlicePath_eq_stringsJoin] at hmem
    rcases mem_stringsJoin '_' "/" _ hmem with h1 | ⟨piece, hpiece, h1⟩
    · exact absurd h1 (by decide)
    · rcases List.mem_cons.1 hpiece with h2 | h2
      · rw [h2] at h1
        exact absurd h1 (by decide)
      · obtain ⟨i, _, rfl⟩ := List.mem_map.1 h2
        rw [String.data_append, List.mem_append] at h1
        rcases h1 with h1 | h1
        · rcases mem_stringsJoin '_' "-" _ h1 with h3 | ⟨e, he, h3⟩
          · exact absurd h3 (by decide)
          · obtain ⟨s, hs, rfl⟩ := List.mem_map.1 (List.mem_of_mem_take he)
            refine ⟨s, hs, ?_⟩
            simp only [escapeSystemdCgroupName, stringsReplaceAll, List.mem_map] at h3
            obtain ⟨c, hc, hcu⟩ := h3
            by_cases hd : c = '-'
            · exact hd ▸ hc
            · rw [if_neg hd] at hcu
              exact absurd (hcu ▸ hc) (h s hs).2.2
        · exact absurd h1 (by decide)

/-- The parent name `getCgroupName` builds for each of the three QoS classes. -/
theorem parent_of_qos (GetPodQOS : Pod → PodQOSClass) (pod : Pod)
    (hq : GetPodQOS pod = PodQOSGuaranteed ∨ GetPodQOS pod = PodQOSBurstable ∨
      GetPodQOS pod = PodQOSBestEffort) :
    ∃ parent : CgroupName,
      (if GetPodQOS pod = PodQOSGuaranteed then NewCgroupName ["kubepods"] []
        else if GetPodQOS pod = PodQOSBurstable then
          NewCgroupName ["kubepods"] [stringsToLower PodQOSBurstable]
        else if GetPodQOS pod = PodQOSBestEffort then
          NewCgroupName ["kubepods"] [stringsToLower PodQOSBestEffort]
        else Result.ok []) = .ok parent ∧
      (∀ s ∈ parent, s ≠ "" ∧ '/' ∉ s.data ∧ '_' ∉ s.data) ∧
      ((parent = ["kubepods"] ∧ GetPodQOS pod = PodQOSGuaranteed) ∨
        (parent = ["kubepods", "burstable"] ∧ GetPodQOS pod = PodQOSBurstable) ∨
        (parent = ["kubepods", "besteffort"] ∧ GetPodQOS pod = PodQOSBestEffort)) := by
  rcases hq with hq | hq | hq
  · exact ⟨["kubepods"], by rw [if_pos hq]; rfl, by decide, Or.inl ⟨rfl, hq⟩⟩
  · have hg : GetPodQOS pod ≠ PodQOSGuaranteed := by rw [hq]; decide
    exact ⟨["kubepods", "burstable"], by rw [if_neg hg, if_pos hq]; rfl, by decide,
      Or.inr (Or.inl ⟨rfl, hq⟩)⟩
  · have hg : GetPodQOS pod ≠ PodQOSGuaranteed := by rw [hq]; decide
    have hb : GetPodQOS pod ≠ PodQOSBurstable := by rw [hq]; decide
    exact ⟨["kubepods", "besteffort"], by rw [if_neg hg, if_neg hb, if_pos hq]; rfl, by decide,
      Or.inr (Or.inr ⟨rfl, hq⟩)⟩

/-- Two pods of the three QoS classes that resolve to the same path for a container
have the same class and the same UID. -/
theorem getCgroupName_injective (GetPodQOS : Pod → PodQOSClass) (pod1 pod2 : Pod)
    (containerID path : String)
    (hq1 : GetPodQOS pod1 = PodQOSGuaranteed ∨ GetPodQOS pod1 = PodQOSBurstable ∨
      GetPodQOS pod1 = PodQOSBestEffort)
    (hq2 : GetPodQOS pod2 = PodQOSGuaranteed ∨ GetPodQOS pod2 = PodQOSBurstable ∨
      GetPodQOS pod2 = PodQOSBestEffort)
    (h1 : getCgroupName GetPodQOS pod1 containerID = .ok path)
    (h2 : getCgroupName GetPodQOS pod2 containerID = .ok path) :
    GetPodQOS pod1 = GetPodQOS pod2 ∧ pod1.UID = pod2.UID := by
  have hu1 := getCgroupName_ok_uid GetPodQOS pod1 containerID path h1
  have hu2 := getCgroupName_ok_uid GetPodQOS pod2 containerID path h2
  obtain ⟨parent1, hp1, hv1, hc1⟩ := parent_of_qos GetPodQOS pod1 hq1
  obtain ⟨parent2, hp2, hv2, hc2⟩ := parent_of_qos GetPodQOS pod2 hq2
  rw [getCgroupName_of_parent GetPodQOS pod1 containerID parent1 hp1
    (fun s hs => ⟨(hv1 s hs).1, (hv1 s hs).2.1⟩) hu1.1 hu1.2, Result.ok.injEq] at h1
  rw [getCgroupName_of_parent GetPodQOS pod2 containerID parent2 hp2
    (fun s hs => ⟨(hv2 s hs).1, (hv2 s hs).2.1⟩) hu2.1 hu2.2, Result.ok.injEq] at h2
  have hnested : nestedSlicePath ((parent1 ++ [PodCgroupNamePrefix ++ pod1.UID]).map
      escapeSystemdCgroupName) =
      nestedSlicePath ((parent2 ++ [PodCgroupNamePrefix ++ pod2.UID]).map
        escapeSystemdCgroupName) := by
    have h12 := h1.trans h2.symm
    apply String.ext
    have hd := congrArg String.data h12
    simp only [String.data_append, List.append_assoc] at hd
    exact List.append_cancel_right hd
  have hvalid : ∀ (parent : CgroupName) (pod : Pod),
      (∀ s ∈ parent, s ≠ "" ∧ '/' ∉ s.data ∧ '_' ∉ s.data) →
      '/' ∉ pod.UID.data ∧ '_' ∉ pod.UID.data →
      ∀ s ∈ parent ++ [PodCgroupNamePrefix ++ pod.UID],
        s ≠ "" ∧ '/' ∉ s.data ∧ '_' ∉ s.data := by
    intro parent pod hv hu s hs
    rcases List.mem_append.1 hs with h3 | h3
    · exact hv s h3
    · have h4 := podContainer_valid pod.UID hu.1 hu.2 s h3
      rw [List.mem_singleton] at h3
      exact ⟨h3 ▸ podContainer_ne_empty pod.UID, h4⟩
  have hnames := ToSystemd_injective _ _ (hvalid parent1 pod1 hv1 hu1)
    (hvalid parent2 pod2 hv2 hu2) (by
      rw [ToSystemd_eq _ (by simp) (fun s hs =>
          ⟨(hvalid parent1 pod1 hv1 hu1 s hs).1, (hvalid parent1 pod1 hv1 hu1 s hs).2.1⟩),
        ToSystemd_eq _ (by simp) (fun s hs =>
          ⟨(hvalid parent2 pod2 hv2 hu2 s hs).1, (hvalid parent2 pod2 hv2 hu2 s hs).2.1⟩),
        hnested])
  obtain ⟨hparents, hpods⟩ := List.append_inj' hnames rfl
  have huid : pod1.UID = pod2.UID := by
    apply String.ext
    have hd := congrArg String.data (List.singleton_inj.1 hpods)
    simp only [String.data_append] at hd
    exact List.append_cancel_left hd
  refine ⟨?_, huid⟩
  rcases hc1 with ⟨e1, q1⟩ | ⟨e1, q1⟩ | ⟨e1, q1⟩ <;>
    rcases hc2 with ⟨e2, q2⟩ | ⟨e2, q2⟩ | ⟨e2, q2⟩ <;>
    first
      | exact q1.trans q2.symm
      | (rw [e1, e2] at hparents; exact absurd hparents (by decide))

/-- With limits for the resource that are not negative and an integer total of at most
zero, the unsigned total of `GetGPUResourceOfPod` is zero. -/
theorem GetGPUResourceOfPod_eq_zero (pod : Pod) (resourceName : String)
    (hnonneg : ∀ c ∈ pod.Spec.Containers, ∀ v,
      limitOf c.Limits resourceName = some v → 0 ≤ v)
    (h : limitTotal pod resourceName ≤ 0) : GetGPUResourceOfPod pod resourceName = 0 := by
  apply sumLimits_of_zero resourceName pod.Spec.Containers 0 (by decide)
  intro c hc v hv
  by_contra hv0
  have hpos := sum_filterMap_pos resourceName pod.Spec.Containers hnonneg ⟨c, hc, v, hv, hv0⟩
  unfold limitTotal at h
  omega

/-- A pod that `GetPod` returns is the mirrored pod, live and passing the GPU filter. -/
theorem GetPod_eq_ok (p : PodCache) (ns name : String) (pod : Pod)
    (h : p.GetPod ns name = .ok pod) :
    p.mirror ns name = some pod ∧ podIsTerminated pod = false ∧
      IsGPURequiredPod pod = true := by
  unfold PodCache.GetPod PodCache.listerGet at h
  cases hm : p.mirror ns name with
  | none => simp [hm] at h
  | some q =>
    simp only [hm] at h
    by_cases ht : podIsTerminated q = true
    · simp [ht] at h
    · by_cases hg : IsGPURequiredPod q = true
      · simp only [ht, hg, Bool.false_eq_true, if_false, Bool.not_true, Result.ok.injEq] at h
        subst h
        exact ⟨rfl, by simpa using ht, hg⟩
      · simp [ht, hg] at h

/-- C4: `NewCgroupName(base, components...)` panics with the invalid-character error
exactly when some new component contains `/` or `_`; a single component holding
either character always makes it panic, and components free of both give the
segments of `base` followed by the components in order. -/
theorem NewCgroupName_panics_iff (base : CgroupName) (components : List String) :
    ((∃ c, NewCgroupName base components = .panic (.invalidComponent c)) ↔
      ∃ c ∈ components, '/' ∈ c.data ∨ '_' ∈ c.data) ∧
    ((∀ c ∈ components, '/' ∉ c.data ∧ '_' ∉ c.data) →
      NewCgroupName base components = .ok (base ++ components)) ∧
    (∀ s : String, ('/' ∈ s.data ∨ '_' ∈ s.data) →
      NewCgroupName base [s] = .panic (.invalidComponent s)) := by
  refine ⟨⟨?_, NewCgroupName_panic base components⟩, NewCgroupName_ok base components, ?_⟩
  · rintro ⟨c, hc⟩
    by_contra hno
    have hall : ∀ c ∈ components, '/' ∉ c.data ∧ '_' ∉ c.data := by
      intro d hd
      constructor
      · intro h1
        exact hno ⟨d, hd, Or.inl h1⟩
      · intro h1
        exact hno ⟨d, hd, Or.inr h1⟩
    rw [NewCgroupName_ok base components hall] at hc
    cases hc
  · intro s hs
    have hbad : invalidComponent s = true := (invalidComponent_iff s).2 hs
    simp [NewCgroupName, List.find?, hbad]

/-- C4 at concrete inputs: `ab_c` is refused after the base `kubepods`, and the
components `burstable`, `pod12-34` are appended to it. -/
theorem NewCgroupName_panics_iff_witness :
    NewCgroupName ["kubepods"] ["ab_c"] = .panic (.invalidComponent "ab_c") ∧
    NewCgroupName ["kubepods"] ["burstable", "pod12-34"] =
      .ok ["kubepods", "burstable", "pod12-34"] :=
  ⟨(NewCgroupName_panics_iff ["kubepods"] ["ab_c"]).2.2 "ab_c" (by decide),
   (NewCgroupName_panics_iff ["kubepods"] ["burstable", "pod12-34"]).2.1 (by decide)⟩

/-- C1: for a pod whose QoS class is Guaranteed and whose UID holds neither `/`
nor `_`, `getCgroupName` returns, with no error, the path
`/kubepods.slice/kubepods-pod<u'>.slice/crio-conmon-<c>.scope`, where `u'` is the UID
with every `-` replaced by `_`. -/
theorem getCgroupName_guaranteed (GetPodQOS : Pod → PodQOSClass) (pod : Pod)
    (containerID : String) (hq : GetPodQOS pod = PodQOSGuaranteed)
    (hs : '/' ∉ pod.UID.data) (hu : '_' ∉ pod.UID.data) :
    getCgroupName GetPodQOS pod containerID =
      .ok ("/kubepods.slice/kubepods-pod" ++ dashToUnderscore pod.UID ++ ".slice/crio-conmon-" ++
        containerID ++ ".scope") := by
  rw [getCgroupName_of_parent GetPodQOS pod containerID ["kubepods"] (by rw [if_pos hq]; rfl)
    (by decide) hs hu]
  congr 1
  apply String.ext
  simp [nestedSlicePath, List.range_succ, stringsJoin, List.intercalate, escapeSystemdCgroupName,
    stringsReplaceAll, PodCgroupNamePrefix, dashToUnderscore]

/-- C1 at the seed input: UID `1234-abcd` and container `abc123`. -/
theorem getCgroupName_guaranteed_witness :
    getCgroupName (fun _ => PodQOSGuaranteed)
        ⟨"p", "ns", "1234-abcd", none, ⟨[]⟩, ⟨"Running", []⟩⟩ "abc123" =
      .ok "/kubepods.slice/kubepods-pod1234_abcd.slice/crio-conmon-abc123.scope" :=
  getCgroupName_guaranteed (fun _ => PodQOSGuaranteed)
    ⟨"p", "ns", "1234-abcd", none, ⟨[]⟩, ⟨"Running", []⟩⟩ "abc123" rfl (by decide) (by decide)

/-- C2: for a pod whose QoS class is Burstable and whose UID holds neither `/` nor
`_`, `getCgroupName` returns the path
`/kubepods.slice/kubepods-burstable.slice/kubepods-burstable-pod<u'>.slice/crio-conmon-<c>.scope`,
where `u'` is the UID with every `-` replaced by `_`. -/
theorem getCgroupName_burstable (GetPodQOS : Pod → PodQOSClass) (pod : Pod)
    (containerID : String) (hq : GetPodQOS pod = PodQOSBurstable)
    (hs : '/' ∉ pod.UID.data) (hu : '_' ∉ pod.UID.data) :
    getCgroupName GetPodQOS pod containerID =
      .ok ("/kubepods.slice/kubepods-burstable.slice/kubepods-burstable-pod" ++
        dashToUnderscore pod.UID ++ ".slice/crio-conmon-" ++ containerID ++ ".scope") := by
  have hg : GetPodQOS pod ≠ PodQOSGuaranteed := by rw [hq]; decide
  rw [getCgroupName_of_parent GetPodQOS pod containerID ["kubepods", "burstable"]
    (by rw [if_neg hg, if_pos hq]; rfl) (by decide) hs hu]
  congr 1
  apply String.ext
  simp [nestedSlicePath, List.range_succ, stringsJoin, List.intercalate, escapeSystemdCgroupName,
    stringsReplaceAll, PodCgroupNamePrefix, dashToUnderscore]

/-- C2 at the input of the specification: UID `5678-efgh`. -/
theorem getCgroupName_burstable_witness :
    getCgroupName (fun _ => PodQOSBurstable)
        ⟨"p", "ns", "5678-efgh", none, ⟨[]⟩, ⟨"Running", []⟩⟩ "abc123" =
      .ok ("/kubepods.slice/kubepods-burstable.slice/kubepods-burstable-pod5678_efgh.slice" ++
        "/crio-conmon-abc123.scope") :=
  getCgroupName_burstable (fun _ => PodQOSBurstable)
    ⟨"p", "ns", "5678-efgh", none, ⟨[]⟩, ⟨"Running", []⟩⟩ "abc123" rfl (by decide) (by decide)

/-- C10: for a name of `n ≥ 1` segments, each non-empty and free of `/` and `_`,
`ToSystemd` returns the concatenation, for `i = 1..n`, of
`"/" + e1 + "-" + ... + "-" + ei + ".slice"`, where `ei` is the i-th segment with every
`-` replaced by `_`. -/
theorem ToSystemd_nested (cgroupName : CgroupName) (hn : 1 ≤ cgroupName.length)
    (h : ∀ s ∈ cgroupName, s ≠ "" ∧ '/' ∉ s.data ∧ '_' ∉ s.data) :
    ToSystemd cgroupName = .ok (nestedSlicePath (cgroupName.map dashToUnderscore)) :=
  ToSystemd_eq cgroupName (by intro h0; rw [h0] at hn; exact absurd hn (by decide))
    (fun s hs => ⟨(h s hs).1, (h s hs).2.1⟩)

/-- C10 at the name of the doc comment of `ToSystemd`. -/
theorem ToSystemd_nested_witness :
    ToSystemd ["kubepods", "burstable", "pod1234-abcd-5678-efgh"] = .ok
      "/kubepods.slice/kubepods-burstable.slice/kubepods-burstable-pod1234_abcd_5678_efgh.slice" :=
  (ToSystemd_nested ["kubepods", "burstable", "pod1234-abcd-5678-efgh"] (by decide)
    (by decide)).trans (by decide)

/-- C3: a container whose status and pod lookups succeed (a Guaranteed GPU pod with
UID `1234-abcd`) but whose root cgroup directory does not exist: the walk calls the
callback once with a nil `info`, and `GetPidsInContainers` panics on `info.IsDir()`
instead of returning an empty list. -/
theorem GetPidsInContainers_missing_root_panics :
    containerInfoManager.GetPidsInContainers
        ⟨fun _ => .ok ⟨some [(PodNamespaceLabelKey, "ns"), (PodNameLabelKey, "p")]⟩,
          ⟨fun _ _ => some ⟨"p", "ns", "1234-abcd", none,
            ⟨[⟨"c", [(Nvidiagpu, 1)]⟩]⟩, ⟨"Running", []⟩⟩⟩⟩
        (fun _ => PodQOSGuaranteed) (fun _ => none) "abc123" =
      .panic .nilDereference :=
  GetPidsInContainers_of_missing_root _ _ _ "abc123"
    [(PodNamespaceLabelKey, "ns"), (PodNameLabelKey, "p")]
    ⟨"p", "ns", "1234-abcd", none, ⟨[⟨"c", [(Nvidiagpu, 1)]⟩]⟩, ⟨"Running", []⟩⟩
    "/kubepods.slice/kubepods-pod1234_abcd.slice/crio-conmon-abc123.scope"
    rfl (by decide) (by decide) rfl

/-- C7: the name `NewCgroupName(NewCgroupName([], "kubepods"), "")` is accepted
(the empty component holds neither `/` nor `_`), and `ToSystemd` panics on it: the
slice expansion refuses `kubepods-.slice`. -/
theorem ToSystemd_panics_on_empty_component :
    NewCgroupName [] ["kubepods"] = .ok ["kubepods"] ∧
    NewCgroupName ["kubepods"] [""] = .ok ["kubepods", ""] ∧
    ToSystemd ["kubepods", ""] =
      .panic (.systemdConversion ["kubepods", ""] (.invalidSliceName "kubepods-.slice")) := by
  decide

/-- C5: `podIsTerminated(pod)` is true exactly when the phase is Failed or
Succeeded, or the pod has a deletion timestamp and every container status is
terminated or waiting; with a deletion timestamp and no container status the pod
is terminated. -/
theorem podIsTerminated_iff (pod : Pod) :
    (podIsTerminated pod = true ↔
      (pod.Status.Phase = PodFailed ∨ pod.Status.Phase = PodSucceeded ∨
        (pod.DeletionTimestamp ≠ none ∧
          ∀ st ∈ pod.Status.ContainerStatuses,
            st.State.Terminated ≠ none ∨ st.State.Waiting ≠ none))) ∧
    (pod.DeletionTimestamp ≠ none → pod.Status.ContainerStatuses = [] →
      podIsTerminated pod = true) := by
  refine ⟨podIsTerminated_eq_true pod, ?_⟩
  intro hdel hnil
  rw [podIsTerminated_eq_true]
  refine Or.inr (Or.inr ⟨hdel, ?_⟩)
  rw [hnil]
  intro st hst
  cases hst

/-- C5 at a running pod under deletion that reports no container status. -/
theorem podIsTerminated_iff_witness :
    podIsTerminated ⟨"p", "ns", "1234-abcd", some 7, ⟨[]⟩, ⟨"Running", []⟩⟩ = true :=
  (podIsTerminated_iff ⟨"p", "ns", "1234-abcd", some 7, ⟨[]⟩, ⟨"Running", []⟩⟩).2
    (by decide) rfl

/-- C9: `GetPod(namespace, name)` returns a pod exactly when the mirror holds a pod
under that key that is not terminated and requires a GPU, and then it is the
mirrored pod itself; otherwise it returns the lister's error for an absent pod, the
`terminated pod` error for a terminated one (whatever its GPU limits), and the
`no gpu pod` error for a live pod without GPU. -/
theorem GetPod_iff (p : PodCache) (ns name : String) :
    (∀ pod, p.GetPod ns name = .ok pod ↔
      (p.mirror ns name = some pod ∧ podIsTerminated pod = false ∧
        IsGPURequiredPod pod = true)) ∧
    (∀ e, p.listerGet ns name = .error e → p.GetPod ns name = .error e) ∧
    (p.mirror ns name = none → p.GetPod ns name = .error (.notFound name)) ∧
    (∀ pod, p.mirror ns name = some pod → podIsTerminated pod = true →
      p.GetPod ns name = .error .terminatedPod) ∧
    (∀ pod, p.mirror ns name = some pod → podIsTerminated pod = false →
      IsGPURequiredPod pod = false → p.GetPod ns name = .error .noGpuPod) := by
  cases hm : p.mirror ns name with
  | none =>
    refine ⟨?_, ?_, ?_, ?_, ?_⟩
    · intro pod
      simp [PodCache.GetPod, PodCache.listerGet, hm]
    · intro e he
      simp only [PodCache.GetPod, he]
    · intro _
      simp only [PodCache.GetPod, PodCache.listerGet, hm]
    · intro pod hpod
      cases hpod
    · intro pod hpod
      cases hpod
  | some q =>
    refine ⟨?_, ?_, ?_, ?_, ?_⟩
    · intro pod
      by_cases ht : podIsTerminated q = true
      · simp only [PodCache.GetPod, PodCache.listerGet, hm, ht, if_true, Option.some.injEq]
        constructor
        · intro h
          cases h
        · rintro ⟨rfl, h1, _⟩
          rw [ht] at h1
          cases h1
      · rw [Bool.not_eq_true] at ht
        by_cases hg : IsGPURequiredPod q = true
        · simp only [PodCache.GetPod, PodCache.listerGet, hm, ht, hg, Bool.false_eq_true,
            if_false, Bool.not_true, Result.ok.injEq, Option.some.injEq]
          constructor
          · rintro rfl
            exact ⟨rfl, ht, hg⟩
          · rintro ⟨rfl, _, _⟩
            rfl
        · rw [Bool.not_eq_true] at hg
          simp only [PodCache.GetPod, PodCache.listerGet, hm, ht, hg, Bool.false_eq_true,
            if_false, Bool.not_false, if_true, Option.some.injEq]
          constructor
          · intro h
            cases h
          · rintro ⟨rfl, _, h2⟩
            rw [hg] at h2
            cases h2
    · intro e he
      simp [PodCache.listerGet, hm] at he
    · intro h
      cases h
    · intro pod hpod ht
      cases hpod
      simp only [PodCache.GetPod, PodCache.listerGet, hm, ht, if_true]
    · intro pod hpod ht hg
      cases hpod
      simp only [PodCache.GetPod, PodCache.listerGet, hm, ht, hg, Bool.false_eq_true, if_false,
        Bool.not_false, if_true]

/-- C9 at a cache that holds one live pod with one `nvidia.com/gpu`: the pod is
returned under its key, and another key gives the lister's error. -/
theorem GetPod_iff_witness :
    PodCache.GetPod ⟨fun ns name => if ns = "ns" ∧ name = "p" then
        some ⟨"p", "ns", "1234-abcd", none, ⟨[⟨"c", [(Nvidiagpu, 1)]⟩]⟩, ⟨"Running", []⟩⟩
        else none⟩ "ns" "p" =
      .ok ⟨"p", "ns", "1234-abcd", none, ⟨[⟨"c", [(Nvidiagpu, 1)]⟩]⟩, ⟨"Running", []⟩⟩ ∧
    PodCache.GetPod ⟨fun ns name => if ns = "ns" ∧ name = "p" then
        some ⟨"p", "ns", "1234-abcd", none, ⟨[⟨"c", [(Nvidiagpu, 1)]⟩]⟩, ⟨"Running", []⟩⟩
        else none⟩ "ns" "q" = .error (.notFound "q") :=
  ⟨((GetPod_iff _ "ns" "p").1 _).2 ⟨by decide, by decide, by decide⟩,
   (GetPod_iff _ "ns" "q").2.2.1 (by decide)⟩

/-- C6, as stated, fails on the code: a line of digits beyond the range of `int` is
dropped, a line ending in a carriage return is parsed without it, and a line of
65536 bytes stops the scan so that the later line `7` is lost. -/
theorem readProcsFile_not_decimalLines :
    (readProcsFile (some "99999999999999999999") = .ok [] ∧
      decimalLines "99999999999999999999" = [99999999999999999999]) ∧
    (readProcsFile (some "12\r\n34") = .ok [12, 34] ∧ decimalLines "12\r\n34" = [34]) ∧
    (readProcsFile (some (longLine ++ "\n7")) = .ok [] ∧
      decimalLines (longLine ++ "\n7") = [7]) := by
  refine ⟨⟨by decide, by decide⟩, ⟨by decide, by decide⟩, ?_, ?_⟩
  · rw [readProcsFile_eq, decimalLinesInRange, linesOf_longLine]
    simp [List.takeWhile_cons, utf8ByteSize_longLine]
  · rw [decimalLines, linesOf_longLine]
    simp only [List.filterMap_cons, decimalValue_longLine]
    decide

/-- C6, amended: for every content of a file that opens, `readProcsFile` returns no
error and, in line order, the values of exactly those lines before the first line
of 65536 bytes or more that, without one terminal carriage return, consist
entirely of a decimal integer within the range of `int`; the content
`123\n456\nnotanumber\n789` gives `[123, 456, 789]`. -/
theorem readProcsFile_lines_in_range :
    (∀ content : String, readProcsFile (some content) = .ok (decimalLinesInRange content)) ∧
    readProcsFile (some "123\n456\nnotanumber\n789") = .ok [123, 456, 789] :=
  ⟨readProcsFile_eq, by decide⟩

/-- C11: when `os.Open(file)` fails, `readProcsFile(file)` returns an empty PID
list and no error, whatever the path is. -/
theorem readProcsFile_unopenable (osOpen : String → Option String) (file : String)
    (h : osOpen file = none) : readProcsFile (osOpen file) = .ok [] := by
  rw [h]
  rfl

/-- C11 at a file system without any file. -/
theorem readProcsFile_unopenable_witness :
    readProcsFile ((fun _ => none) "/sys/fs/cgroup/memory/none/cgroup.procs") = .ok [] :=
  readProcsFile_unopenable (fun _ => none) "/sys/fs/cgroup/memory/none/cgroup.procs" rfl

/-- C12: for a pod of the mirror whose phase is Failed, `GetPod` returns the
`terminated pod` error and no pod, whatever its deletion timestamp, container
statuses and GPU limits are. -/
theorem GetPod_failed_phase (p : PodCache) (ns name : String) (pod : Pod)
    (hm : p.mirror ns name = some pod) (hphase : pod.Status.Phase = PodFailed) :
    p.GetPod ns name = .error .terminatedPod ∧ ∀ q, p.GetPod ns name ≠ .ok q := by
  have ht : podIsTerminated pod = true := by
    rw [podIsTerminated_eq_true]
    exact Or.inl hphase
  have hget : p.GetPod ns name = .error .terminatedPod := by
    simp only [PodCache.GetPod, PodCache.listerGet, hm, ht, if_true]
  refine ⟨hget, ?_⟩
  intro q hq
  rw [hget] at hq
  cases hq

/-- C12 at a failed pod that holds a GPU limit and a running container. -/
theorem GetPod_failed_phase_witness :
    PodCache.GetPod ⟨fun _ _ => some ⟨"p", "ns", "1234-abcd", none,
        ⟨[⟨"c", [(Nvidiagpu, 1)]⟩]⟩, ⟨PodFailed, [⟨"c", ⟨none, some ⟨3⟩, none⟩⟩]⟩⟩⟩ "ns" "p" =
      .error .terminatedPod :=
  (GetPod_failed_phase _ "ns" "p" ⟨"p", "ns", "1234-abcd", none,
    ⟨[⟨"c", [(Nvidiagpu, 1)]⟩]⟩, ⟨PodFailed, [⟨"c", ⟨none, some ⟨3⟩, none⟩⟩]⟩⟩ rfl rfl).1

/-- C14: for a pod whose QoS class is BestEffort and whose UID holds neither `/`
nor `_`, `ToSystemd` of the name `kubepods`, `besteffort`, `pod<u>` is
`/kubepods.slice/kubepods-besteffort.slice/kubepods-besteffort-pod<u'>.slice`, with `u'`
the escaped UID, and `getCgroupName` returns it followed by
`/crio-conmon-<c>.scope`. -/
theorem getCgroupName_besteffort (GetPodQOS : Pod → PodQOSClass) (pod : Pod)
    (containerID : String) (hq : GetPodQOS pod = PodQOSBestEffort)
    (hs : '/' ∉ pod.UID.data) (hu : '_' ∉ pod.UID.data) :
    ToSystemd ["kubepods", "besteffort", "pod" ++ pod.UID] =
      .ok ("/kubepods.slice/kubepods-besteffort.slice/kubepods-besteffort-pod" ++
        dashToUnderscore pod.UID ++ ".slice") ∧
    getCgroupName GetPodQOS pod containerID =
      .ok ("/kubepods.slice/kubepods-besteffort.slice/kubepods-besteffort-pod" ++
        dashToUnderscore pod.UID ++ ".slice" ++ "/crio-conmon-" ++ containerID ++ ".scope") := by
  have hg : GetPodQOS pod ≠ PodQOSGuaranteed := by rw [hq]; decide
  have hb : GetPodQOS pod ≠ PodQOSBurstable := by rw [hq]; decide
  constructor
  · rw [ToSystemd_eq ["kubepods", "besteffort", "pod" ++ pod.UID] (by simp) (by
      intro s hmem
      simp only [List.mem_cons, List.mem_singleton, List.not_mem_nil, or_false] at hmem
      rcases hmem with rfl | rfl | rfl
      · decide
      · decide
      · exact ⟨podContainer_ne_empty pod.UID,
          (podContainer_valid pod.UID hs hu _ (List.mem_singleton_self _)).1⟩)]
    congr 1
    apply String.ext
    simp [nestedSlicePath, List.range_succ, stringsJoin, List.intercalate,
      escapeSystemdCgroupName, stringsReplaceAll, dashToUnderscore]
  · rw [getCgroupName_of_parent GetPodQOS pod containerID ["kubepods", "besteffort"]
      (by rw [if_neg hg, if_neg hb, if_pos hq]; rfl) (by decide) hs hu]
    congr 1
    apply String.ext
    simp [nestedSlicePath, List.range_succ, stringsJoin, List.intercalate,
      escapeSystemdCgroupName, stringsReplaceAll, PodCgroupNamePrefix, dashToUnderscore]

/-- C14 at the UID `5678-efgh` and the container `abc123`. -/
theorem getCgroupName_besteffort_witness :
    getCgroupName (fun _ => PodQOSBestEffort)
        ⟨"p", "ns", "5678-efgh", none, ⟨[]⟩, ⟨"Running", []⟩⟩ "abc123" =
      .ok ("/kubepods.slice/kubepods-besteffort.slice/kubepods-besteffort-pod5678_efgh.slice" ++
        "/crio-conmon-abc123.scope") :=
  (getCgroupName_besteffort (fun _ => PodQOSBestEffort)
    ⟨"p", "ns", "5678-efgh", none, ⟨[]⟩, ⟨"Running", []⟩⟩ "abc123" rfl (by decide)
    (by decide)).2

/-- C19: a root directory that holds `cgroup.procs` with `1` and `2` and whose
listing names an entry `sub` on which `Lstat` fails (a cgroup removed since the
listing): the walk calls the callback with a nil `info` for it and
`GetPidsInContainers` panics instead of returning `1, 2`.  With `sub` a directory
that holds `cgroup.procs` with `2` and a file `tasks`, and a directory `zed` whose
`cgroup.procs` cannot be opened, it returns `1, 2, 2`. -/
theorem GetPidsInContainers_entry_gone_panics :
    containerInfoManager.GetPidsInContainers
        ⟨fun _ => .ok ⟨some [(PodNamespaceLabelKey, "ns"), (PodNameLabelKey, "p")]⟩,
          ⟨fun _ _ => some ⟨"p", "ns", "1234-abcd", none,
            ⟨[⟨"c", [(Nvidiagpu, 1)]⟩]⟩, ⟨"Running", []⟩⟩⟩⟩
        (fun _ => PodQOSGuaranteed)
        (fun _ => some (.dir "crio-conmon-abc123.scope"
          [.file "cgroup.procs" (some "1\n2\n"), .gone "sub"]))
        "abc123" =
      .panic .nilDereference ∧
    containerInfoManager.GetPidsInContainers
        ⟨fun _ => .ok ⟨some [(PodNamespaceLabelKey, "ns"), (PodNameLabelKey, "p")]⟩,
          ⟨fun _ _ => some ⟨"p", "ns", "1234-abcd", none,
            ⟨[⟨"c", [(Nvidiagpu, 1)]⟩]⟩, ⟨"Running", []⟩⟩⟩⟩
        (fun _ => PodQOSGuaranteed)
        (fun _ => some (.dir "crio-conmon-abc123.scope"
          [.file "cgroup.procs" (some "1\n2\n"),
           .dir "sub" [.file "cgroup.procs" (some "2\n"), .file "tasks" (some "9\n")],
           .dir "zed" [.file "cgroup.procs" none]]))
        "abc123" =
      .ok [1, 2, 2] := by
  constructor
  · exact GetPidsInContainers_of_gone _ _ _ "abc123"
      [(PodNamespaceLabelKey, "ns"), (PodNameLabelKey, "p")]
      ⟨"p", "ns", "1234-abcd", none, ⟨[⟨"c", [(Nvidiagpu, 1)]⟩]⟩, ⟨"Running", []⟩⟩
      "/kubepods.slice/kubepods-pod1234_abcd.slice/crio-conmon-abc123.scope"
      (.dir "crio-conmon-abc123.scope" [.file "cgroup.procs" (some "1\n2\n"), .gone "sub"])
      rfl (by decide) (by decide) rfl (by simp [allStat, allStat.allStatIn])
  · rw [GetPidsInContainers_of_root _ _ _ "abc123"
      [(PodNamespaceLabelKey, "ns"), (PodNameLabelKey, "p")]
      ⟨"p", "ns", "1234-abcd", none, ⟨[⟨"c", [(Nvidiagpu, 1)]⟩]⟩, ⟨"Running", []⟩⟩
      "/kubepods.slice/kubepods-pod1234_abcd.slice/crio-conmon-abc123.scope"
      (.dir "crio-conmon-abc123.scope"
        [.file "cgroup.procs" (some "1\n2\n"),
         .dir "sub" [.file "cgroup.procs" (some "2\n"), .file "tasks" (some "9\n")],
         .dir "zed" [.file "cgroup.procs" none]])
      rfl (by decide) (by decide) rfl (by simp [allStat, allStat.allStatIn])]
    simp only [procsFilesUnder, procsFilesUnder.procsFilesIn, List.flatMap, List.map,
      List.append_nil, List.nil_append, List.cons_append, List.flatten]
    decide

/-- C16, as stated, fails on the code: the lines `0` and `-5` are returned as the
PIDs `0` and `-5` by `readProcsFile`, and by `GetPidsInContainers` when they stand
in the `cgroup.procs` file of the root. -/
theorem readProcsFile_returns_nonpositive :
    readProcsFile (some "0\n-5") = .ok [0, -5] ∧
    ¬ (∀ pid ∈ ([0, -5] : List Int), 0 < pid) ∧
    containerInfoManager.GetPidsInContainers
        ⟨fun _ => .ok ⟨some [(PodNamespaceLabelKey, "ns"), (PodNameLabelKey, "p")]⟩,
          ⟨fun _ _ => some ⟨"p", "ns", "1234-abcd", none,
            ⟨[⟨"c", [(Nvidiagpu, 1)]⟩]⟩, ⟨"Running", []⟩⟩⟩⟩
        (fun _ => PodQOSGuaranteed)
        (fun _ => some (.dir "crio-conmon-abc123.scope" [.file "cgroup.procs" (some "0\n-5")]))
        "abc123" =
      .ok [0, -5] := by
  refine ⟨by decide, by decide, ?_⟩
  rw [GetPidsInContainers_of_root _ _ _ "abc123"
    [(PodNamespaceLabelKey, "ns"), (PodNameLabelKey, "p")]
    ⟨"p", "ns", "1234-abcd", none, ⟨[⟨"c", [(Nvidiagpu, 1)]⟩]⟩, ⟨"Running", []⟩⟩
    "/kubepods.slice/kubepods-pod1234_abcd.slice/crio-conmon-abc123.scope"
    (.dir "crio-conmon-abc123.scope" [.file "cgroup.procs" (some "0\n-5")])
    rfl (by decide) (by decide) rfl (by simp [allStat, allStat.allStatIn])]
  simp only [procsFilesUnder, procsFilesUnder.procsFilesIn, List.flatMap, List.map,
    List.append_nil, List.flatten]
  decide

/-- C16, amended: every PID in the list `readProcsFile` returns, and so every PID
`GetPidsInContainers` returns, is an integer within the range of the 64-bit `int`;
a PID read from a content that holds no `-` is not negative. -/
theorem readProcsFile_pids_fit_int :
    (∀ (content : String) (pids : List Int), readProcsFile (some content) = .ok pids →
      ∀ pid ∈ pids, (-(2 : Int) ^ 63 ≤ pid ∧ pid ≤ (2 : Int) ^ 63 - 1) ∧
        ('-' ∉ content.data → 0 ≤ pid)) ∧
    (∀ (m : containerInfoManager) (GetPodQOS : Pod → PodQOSClass)
      (lstat : String → Option FsNode) (containerID : String) (pids : List Int),
      m.GetPidsInContainers GetPodQOS lstat containerID = .ok pids →
      ∀ pid ∈ pids, -(2 : Int) ^ 63 ≤ pid ∧ pid ≤ (2 : Int) ^ 63 - 1) := by
  constructor
  · intro content pids h pid hpid
    rw [readProcsFile_eq, Result.ok.injEq] at h
    have hmem := mem_decimalLinesInRange content pid (h ▸ hpid)
    refine ⟨?_, hmem.2⟩
    simpa [fitsInt] using hmem.1
  · intro m GetPodQOS lstat containerID pids h pid hpid
    have hfit := GetPidsInContainers_mem m GetPodQOS lstat containerID pids h pid hpid
    simpa [fitsInt] using hfit

/-- C16 amended, at the content `0`, `17`: the PID `17` fits `int` and is not
negative. -/
theorem readProcsFile_pids_fit_int_witness :
    (-(2 : Int) ^ 63 ≤ 17 ∧ (17 : Int) ≤ (2 : Int) ^ 63 - 1) ∧
      ('-' ∉ ("0\n17" : String).data → (0 : Int) ≤ 17) :=
  readProcsFile_pids_fit_int.1 "0\n17" [0, 17] (by decide) 17 (by decide)

/-- C18, as stated, fails on the code: in the content `1 2<tab>3<newline>4` the line
`1 2<tab>3` is no integer for `strconv.Atoi`, so only `4` is returned, where the
whitespace-separated fields are `1, 2, 3, 4`. -/
theorem readProcsFile_not_decimalFields :
    readProcsFile (some "1 2\t3\n4") = .ok [4] ∧ decimalFields "1 2\t3\n4" = [1, 2, 3, 4] := by
  constructor <;> decide

/-- C18, amended: `readProcsFile` parses newline-separated integers: for a content
made of lines joined by newlines, each line empty or, in less than 65536 bytes,
a decimal integer within the range of `int`, it returns the values of all the
integers in order. -/
theorem readProcsFile_newline_separated (tokens : List String)
    (h : ∀ t ∈ tokens, t = "" ∨ (t.utf8ByteSize < MaxScanTokenSize ∧
      ∃ v, decimalValue t = some v ∧ fitsInt v = true)) :
    readProcsFile (some (stringsJoin tokens "\n")) = .ok (tokens.filterMap decimalValue) :=
  readProcsFile_stringsJoin tokens h

/-- C18 amended, at the content `<newline>12<newline><newline>345<newline>`. -/
theorem readProcsFile_newline_separated_witness :
    readProcsFile (some "\n12\n\n345\n") = .ok [12, 345] :=
  readProcsFile_newline_separated ["", "12", "", "345", ""] (by decide)

/-- C17, as stated, fails on the code: a live pod whose only container has the limit
`-1` for `nvidia.com/gpu`: `uint(-1)` is `2^64 - 1`, so `GetGPUResourceOfPod` is not zero, `IsGPURequiredPod`
is true and `GetPod` returns the pod, although its integer totals are `0` for
`dana.894/gpu` and `-1` for `nvidia.com/gpu`. -/
theorem GetPod_returns_negative_gpu_total :
    GetGPUResourceOfPod ⟨"p", "ns", "1234-abcd", none,
        ⟨[⟨"c", [(Nvidiagpu, -1)]⟩]⟩, ⟨"Running", []⟩⟩ Nvidiagpu = 2 ^ 64 - 1 ∧
    IsGPURequiredPod ⟨"p", "ns", "1234-abcd", none,
        ⟨[⟨"c", [(Nvidiagpu, -1)]⟩]⟩, ⟨"Running", []⟩⟩ = true ∧
    PodCache.GetPod ⟨fun _ _ => some ⟨"p", "ns", "1234-abcd", none,
        ⟨[⟨"c", [(Nvidiagpu, -1)]⟩]⟩, ⟨"Running", []⟩⟩⟩ "ns" "p" =
      .ok ⟨"p", "ns", "1234-abcd", none, ⟨[⟨"c", [(Nvidiagpu, -1)]⟩]⟩, ⟨"Running", []⟩⟩ ∧
    limitTotal ⟨"p", "ns", "1234-abcd", none,
        ⟨[⟨"c", [(Nvidiagpu, -1)]⟩]⟩, ⟨"Running", []⟩⟩ Danavgpu = 0 ∧
    limitTotal ⟨"p", "ns", "1234-abcd", none,
        ⟨[⟨"c", [(Nvidiagpu, -1)]⟩]⟩, ⟨"Running", []⟩⟩ Nvidiagpu = -1 := by
  refine ⟨by decide, by decide, by decide, by decide, by decide⟩

/-- C15: the systemd mapping is reversible.  Two names built through `NewCgroupName`
with non-empty segments that have the same `ToSystemd` output are the same name;
the segments of a non-empty such name are read back from the last slice component
of its output (without `.slice`, split on `-`, `_` mapped back to `-`); two pods of
the three QoS classes resolve to the same cgroup path of a container only with the
same class and the same UID; and an output holds a `_` only if a segment holds a
`-`. -/
theorem ToSystemd_reversible :
    (∀ a b : CgroupName, NewCgroupName [] a = .ok a → NewCgroupName [] b = .ok b →
      (∀ s ∈ a, s ≠ "") → (∀ s ∈ b, s ≠ "") → ToSystemd a = ToSystemd b → a = b) ∧
    (∀ a : CgroupName, NewCgroupName [] a = .ok a → (∀ s ∈ a, s ≠ "") → a ≠ [] →
      ∃ out, ToSystemd a = .ok out ∧ recoverSegments out = a) ∧
    (∀ (GetPodQOS : Pod → PodQOSClass) (pod1 pod2 : Pod) (containerID path : String),
      (GetPodQOS pod1 = PodQOSGuaranteed ∨ GetPodQOS pod1 = PodQOSBurstable ∨
        GetPodQOS pod1 = PodQOSBestEffort) →
      (GetPodQOS pod2 = PodQOSGuaranteed ∨ GetPodQOS pod2 = PodQOSBurstable ∨
        GetPodQOS pod2 = PodQOSBestEffort) →
      getCgroupName GetPodQOS pod1 containerID = .ok path →
      getCgroupName GetPodQOS pod2 containerID = .ok path →
      GetPodQOS pod1 = GetPodQOS pod2 ∧ pod1.UID = pod2.UID) ∧
    (∀ (a : CgroupName) (out : String), NewCgroupName [] a = .ok a → (∀ s ∈ a, s ≠ "") →
      ToSystemd a = .ok out → '_' ∈ out.data → ∃ s ∈ a, '-' ∈ s.data) := by
  have hvalid : ∀ a : CgroupName, NewCgroupName [] a = .ok a → (∀ s ∈ a, s ≠ "") →
      ∀ s ∈ a, s ≠ "" ∧ '/' ∉ s.data ∧ '_' ∉ s.data := by
    intro a ha hne s hs
    have h1 := (NewCgroupName_eq_ok [] a a ha).2 s hs
    exact ⟨hne s hs, h1.1, h1.2⟩
  refine ⟨?_, ?_, getCgroupName_injective, ?_⟩
  · intro a b ha hb hnea hneb h
    exact ToSystemd_injective a b (hvalid a ha hnea) (hvalid b hb hneb) h
  · intro a ha hnea hnil
    have hv := hvalid a ha hnea
    have hout := ToSystemd_eq a hnil (fun s hs => ⟨(hv s hs).1, (hv s hs).2.1⟩)
    exact ⟨_, hout, recoverSegments_ToSystemd a _ hnil hv hout⟩
  · intro a out ha hnea hout hmem
    exact underscore_of_ToSystemd a out (hvalid a ha hnea) hout hmem

/-- C15 at the name of the doc comment of `ToSystemd`: its segments are read back
from its systemd form. -/
theorem ToSystemd_reversible_witness :
    ∃ out, ToSystemd ["kubepods", "burstable", "pod1234-abcd-5678-efgh"] = .ok out ∧
      recoverSegments out = ["kubepods", "burstable", "pod1234-abcd-5678-efgh"] :=
  ToSystemd_reversible.2.1 ["kubepods", "burstable", "pod1234-abcd-5678-efgh"]
    (by decide) (by decide) (by decide)

/-- C17, amended: for a pod whose limits for `dana.894/gpu` and `nvidia.com/gpu` are
not negative, `GetPod` returns it only if the sum over its containers of the
integer limit for one of the two resources is at least 1; when it is in the mirror
and both sums are zero, `GetPod` rejects it with an error. -/
theorem GetPod_gpu_total_nonneg (p : PodCache) (ns name : String) (pod : Pod)
    (hnonneg : ∀ c ∈ pod.Spec.Containers, ∀ v,
      (limitOf c.Limits Danavgpu = some v ∨ limitOf c.Limits Nvidiagpu = some v) → 0 ≤ v) :
    (p.GetPod ns name = .ok pod →
      1 ≤ limitTotal pod Danavgpu ∨ 1 ≤ limitTotal pod Nvidiagpu) ∧
    (p.mirror ns name = some pod → limitTotal pod Danavgpu ≤ 0 →
      limitTotal pod Nvidiagpu ≤ 0 →
      p.GetPod ns name = .error .terminatedPod ∨ p.GetPod ns name = .error .noGpuPod) := by
  have hd : limitTotal pod Danavgpu ≤ 0 → GetGPUResourceOfPod pod Danavgpu = 0 :=
    GetGPUResourceOfPod_eq_zero pod Danavgpu (fun c hc v hv => hnonneg c hc v (Or.inl hv))
  have hn : limitTotal pod Nvidiagpu ≤ 0 → GetGPUResourceOfPod pod Nvidiagpu = 0 :=
    GetGPUResourceOfPod_eq_zero pod Nvidiagpu (fun c hc v hv => hnonneg c hc v (Or.inr hv))
  have hfilter : limitTotal pod Danavgpu ≤ 0 → limitTotal pod Nvidiagpu ≤ 0 →
      IsGPURequiredPod pod = false := by
    intro h1 h2
    simp [IsGPURequiredPod, hd h1, hn h2]
  constructor
  · intro hget
    have hgpu := (GetPod_eq_ok p ns name pod hget).2.2
    by_contra hno
    rw [not_or] at hno
    rw [hfilter (by omega) (by omega)] at hgpu
    cases hgpu
  · intro hm h1 h2
    by_cases ht : podIsTerminated pod = true
    · left
      simp only [PodCache.GetPod, PodCache.listerGet, hm, ht, if_true]
    · right
      simp only [PodCache.GetPod, PodCache.listerGet, hm, ht, hfilter h1 h2, Bool.false_eq_true,
        if_false, Bool.not_false, if_true]

/-- C17 amended, at a live pod with one `nvidia.com/gpu`: `GetPod` returns it and its
total for that resource is at least 1. -/
theorem GetPod_gpu_total_nonneg_witness :
    1 ≤ limitTotal ⟨"p", "ns", "1234-abcd", none,
        ⟨[⟨"c", [(Nvidiagpu, 1)]⟩]⟩, ⟨"Running", []⟩⟩ Danavgpu ∨
      1 ≤ limitTotal ⟨"p", "ns", "1234-abcd", none,
        ⟨[⟨"c", [(Nvidiagpu, 1)]⟩]⟩, ⟨"Running", []⟩⟩ Nvidiagpu :=
  (GetPod_gpu_total_nonneg
    ⟨fun _ _ => some ⟨"p", "ns", "1234-abcd", none,
      ⟨[⟨"c", [(Nvidiagpu, 1)]⟩]⟩, ⟨"Running", []⟩⟩⟩ "ns" "p"
    ⟨"p", "ns", "1234-abcd", none, ⟨[⟨"c", [(Nvidiagpu, 1)]⟩]⟩, ⟨"Running", []⟩⟩
    (by
      intro c hc v hv
      rw [List.mem_singleton] at hc
      subst hc
      rcases hv with hv | hv
      · have h0 : limitOf [(Nvidiagpu, 1)] Danavgpu = none := by decide
        rw [show (⟨"c", [(Nvidiagpu, 1)]⟩ : Container).Limits = [(Nvidiagpu, 1)] from rfl,
          h0] at hv
        cases hv
      · have h1 : limitOf [(Nvidiagpu, 1)] Nvidiagpu = some 1 := by decide
        rw [show (⟨"c", [(Nvidiagpu, 1)]⟩ : Container).Limits = [(Nvidiagpu, 1)] from rfl,
          h1] at hv
        rw [← Option.some.inj hv]
        decide)).1 (by decide)

end ContainerInfo
